import Mathlib

/-!
# starmer: proxy by pattern

A shallow embedding of `starmer.go` (the connection handler `handle`, the hello
sniffer `readHello`, the string reader `readStr0`, the relay client `dialTor` and
the control loop of `main`) and of `ini.go` (the loader `LoadINI`).

Conventions of the embedding.

* A byte is a natural number below 256; a Go `string` or `[]byte` is a `List Nat`
  (Go strings are byte sequences).  Truncations to a machine width are written
  with an explicit `%`; a big-endian 16-bit field with bytes `h l` is `256 * h + l`.
* The client connection is the list of bytes the client sends before it closes
  its side; reading past the end is end of file.
* Everything `handle` does to the outside world is recorded, in order, as a
  list of `Event`s.  What the outside world answers (whether a dial succeeds,
  how many bytes one `Read` delivers, what the pattern matches) is a field of
  `World`.
-/

namespace Starmer

/-! ## Effects and environment -/

/-- The observable actions of one session, in program order. -/
inductive Event where
  /-- The call `clConn.Write(bs)`. -/
  | clWrite (bs : List Nat)
  /-- The call `net.Dial("tcp", dialAddr)` of `handle` (direct route). -/
  | dial (addr : List Nat)
  /-- The call `net.Dial("tcp", tor)` of `dialTor`. -/
  | dialRelay
  /-- A write of `dialTor` on the relay connection `c`. -/
  | relayWrite (bs : List Nat)
  /-- A `c.Read(b)` of `dialTor` on the relay connection. -/
  | relayRead
  /-- The call `tgtConn.Write(hello)` of `handle`. -/
  | tgtWrite (bs : List Nat)
  /-- The forwarding pump (the two `WriteTo` copies) was started and ran to its end. -/
  | pump
  /-- The deferred `tgtConn.Close()`. -/
  | tgtClose
  /-- The deferred `clConn.Close()`. -/
  | clClose
  /-- A run-time panic (index out of range). -/
  | crash
  deriving DecidableEq, Repr

/-- The environment of one session. -/
structure World where
  /-- The bytes the client sends, in order, before end of file. -/
  input : List Nat
  /-- How many bytes are delivered by the single `conn.Read` of `readHello`
  (at least one byte is delivered when any remain). -/
  helloAvail : Nat
  /-- Whether a `Write` on the client connection returns without error. -/
  clWriteOk : Bool
  /-- The compiled pattern: `re.Match`. -/
  re : List Nat → Bool
  /-- Whether `net.Dial("tcp", dialAddr)` succeeds. -/
  dialOk : Bool
  /-- Whether `net.Dial("tcp", tor)` succeeds. -/
  torDialOk : Bool
  /-- Whether the last `c.Read(b)` of `dialTor` returns without error. -/
  torReplyOk : Bool
  /-- The resolver `net.ResolveIPAddr("ip", host)`: the address bytes, if any. -/
  resolve : List Nat → Option (List Nat)

/-! ## Library primitives (Go standard library, by their documented behaviour) -/

/-- The call `binary.Read` of a fixed-size value of `n` bytes (`io.ReadFull`): either all
`n` bytes are read, or the read fails and the stream has been consumed up to
its end.  Returns the bytes (or `none`) and the rest of the stream. -/
def read (n : Nat) (s : List Nat) : Option (List Nat) × List Nat :=
  if n ≤ s.length then (some (s.take n), s.drop n) else (none, [])

/-- One `conn.Read` into a buffer of `m` bytes when the network delivers
`avail` bytes: end of file on an exhausted stream, otherwise between one and
`m` bytes.  Returns the bytes read and the rest of the stream. -/
def connRead (avail m : Nat) (s : List Nat) : Option (List Nat × List Nat) :=
  match s with
  | [] => none
  | _ :: _ =>
    let n := min m (min (max avail 1) s.length)
    some (s.take n, s.drop n)

/-- Decimal digits of `n`, most significant first, with `fuel` recursion steps. -/
def itoaFuel : Nat → Nat → List Nat
  | 0, _ => []
  | fuel + 1, n =>
    if n < 10 then [48 + n] else itoaFuel fuel (n / 10) ++ [48 + n % 10]

/-- The verb `%d` of `fmt.Sprintf` on an unsigned value: its decimal digits in ASCII. -/
def itoa (n : Nat) : List Nat := itoaFuel (n + 1) n

/-- The call `strings.Split(s, sep)` for a one-byte separator. -/
def split (sep : Nat) : List Nat → List (List Nat)
  | [] => [[]]
  | c :: cs =>
    if c = sep then [] :: split sep cs
    else
      match split sep cs with
      | [] => [[c]]
      | f :: fs => (c :: f) :: fs

/-! ## starmer.go -/

/-- The generic `clamp(x, lo, hi) = min(max(lo, x), hi)`. -/
def clamp (x lo hi : Nat) : Nat := min (max lo x) hi

/-- Function `ip2str`: `net.IP(ip[:]).String()` of a 4-byte address, dotted decimal. -/
def ip2str (ip : Nat × Nat × Nat × Nat) : List Nat :=
  itoa ip.1 ++ [46] ++ itoa ip.2.1 ++ [46] ++ itoa ip.2.2.1 ++ [46] ++ itoa ip.2.2.2

/-- Function `readStr0`: read one byte at a time until a NUL byte, end of file or an error.
Returns the string and the rest of the stream. -/
def readStr0 : List Nat → List Nat × List Nat
  | [] => ([], [])
  | x :: rest =>
    if x = 0 then ([], rest)
    else ((x :: (readStr0 rest).1), (readStr0 rest).2)

/-- The reply `{0, 0x5A, 0, 0, 0, 0, 0, 0}` of the SOCKS4 branch. -/
def granted4 : List Nat := [0, 0x5A, 0, 0, 0, 0, 0, 0]

/-- The reply `{5, 0, 0, 1, 0, 0, 0, 0, 0, 0}` of the SOCKS5 branch. -/
def granted5 : List Nat := [5, 0, 0, 1, 0, 0, 0, 0, 0, 0]

/-- The first part of `handle` ("recv client connect", the `switch ver`): the
events it performs and, when it falls through to "recv client hello", the
dial address and the unread rest of the client stream. -/
def handshake (clWriteOk : Bool) (s : List Nat) :
    List Event × Option (List Nat × List Nat) :=
  match read 1 s with
  | (none, _) => ([], none)
  | (some v, s1) =>
    let ver := v.getD 0 0
    if ver = 4 then
      match read 7 s1 with
      | (none, _) => ([], none)
      | (some p1, s2) =>
        let Cmd := p1.getD 0 0
        let DstPort := 256 * p1.getD 1 0 + p1.getD 2 0
        let DstIP := (p1.getD 3 0, p1.getD 4 0, p1.getD 5 0, p1.getD 6 0)
        if Cmd ≠ 1 then ([], none)
        else
          let s3 := (readStr0 s2).2
          let addrstr := ip2str DstIP
          let r := if addrstr = [48, 46, 48, 46, 48, 46, 49] then readStr0 s3 else (addrstr, s3)
          let dialAddr := r.1 ++ [58] ++ itoa DstPort
          ([Event.clWrite granted4], some (dialAddr, r.2))
    else if ver = 5 then
      let r1 := read 2 s1
      let nmeths := match r1.1 with
        | none => 0
        | some b => 256 * b.getD 0 0 + b.getD 1 0
      let s2 := if nmeths > 0 then (read (clamp nmeths 1 255) r1.2).2 else r1.2
      let r3 := read 4 s2
      let ATyp := match r3.1 with
        | none => 0
        | some b => b.getD 3 0
      if ATyp ≠ 1 then ([Event.clWrite [5, 0]], none)
      else
        let r4 := read 6 r3.2
        let Addr := match r4.1 with
          | none => (0, 0, 0, 0)
          | some b => (b.getD 0 0, b.getD 1 0, b.getD 2 0, b.getD 3 0)
        let Port := match r4.1 with
          | none => 0
          | some b => 256 * b.getD 4 0 + b.getD 5 0
        let dialAddr := ip2str Addr ++ [58] ++ itoa Port
        if clWriteOk then
          ([Event.clWrite [5, 0], Event.clWrite granted5], some (dialAddr, r4.2))
        else ([Event.clWrite [5, 0], Event.clWrite granted5], none)
    else ([], none)

/-- The size of the buffer of `readHello`: `make([]byte, 10000)`. -/
def helloBufSize : Nat := 10000

/-- Function `readHello`: a single `conn.Read` into a zero-filled buffer `buf` of 10000
bytes (so `len(buf)` is 10000 whatever was read); the marker test looks at the
buffer, the pattern at `buf[:n]`.  Returns the captured hello and the verdict
`tunnel`. -/
def readHello (re : List Nat → Bool) (avail : Nat) (s : List Nat) : List Nat × Bool :=
  match connRead avail helloBufSize s with
  | none => ([], false)
  | some (got, _) =>
    let n := got.length
    let buf := got ++ List.replicate (helloBufSize - n) 0
    if ¬ ((helloBufSize ≥ 1 ∧ buf.take 1 = [0x16]) ∨
          (helloBufSize ≥ 3 ∧ buf.take 3 = [71, 69, 84]) ∨
          (helloBufSize ≥ 4 ∧ buf.take 4 = [80, 79, 83, 84])) then
      (buf.take n, false)
    else (buf.take n, re (buf.take n))

/-- The digit loop of `strconv.Atoi` (fast path): `ch -= '0'; if ch > 9` is a
syntax error, otherwise `n = n*10 + int(ch)`. -/
def atoiDigits : List Nat → Nat → Option Nat
  | [], n => some n
  | ch :: rest, n =>
    if (ch + 256 - 48) % 256 > 9 then none
    else atoiDigits rest (n * 10 + (ch + 256 - 48) % 256)

/-- The result of `strconv.ParseUint`: a value, or one of its two errors. -/
inductive UintResult where
  | ok (n : Nat)
  | syntaxErr
  | rangeErr
  deriving DecidableEq, Repr

/-- The loop of `strconv.ParseUint(s, 10, 64)` over the bytes of the string: a byte
that is not a decimal digit is a syntax error; the range error is returned as soon as
`n*10` or `n*10 + d` leaves the 64 bits, before any later byte is looked at. -/
def parseUintLoop : List Nat → Nat → UintResult
  | [], n => UintResult.ok n
  | c :: rest, n =>
    if ¬ (48 ≤ c ∧ c ≤ 57) then UintResult.syntaxErr
    else if n ≥ (2 ^ 64 - 1) / 10 + 1 then UintResult.rangeErr
    else if n * 10 + (c - 48) > 2 ^ 64 - 1 then UintResult.rangeErr
    else parseUintLoop rest (n * 10 + (c - 48))

/-- The call `strconv.ParseUint(s, 10, 64)`: the empty string is a syntax error. -/
def parseUint (s : List Nat) : UintResult :=
  match s with
  | [] => UintResult.syntaxErr
  | _ :: _ => parseUintLoop s 0

/-- The value returned by `strconv.ParseInt(s, 10, 0)` with 64-bit `int`: 0 on a
syntax error, the nearest bound on a range error. -/
def parseInt (s : List Nat) : Int :=
  match s with
  | [] => 0
  | c :: rest =>
    let neg : Bool := c = 45
    let digits := if c = 43 ∨ c = 45 then rest else s
    match parseUint digits with
    | UintResult.syntaxErr => 0
    | UintResult.rangeErr => if neg then -(2 ^ 63 : Int) else (2 ^ 63 - 1 : Int)
    | UintResult.ok un =>
      if ¬ neg ∧ un ≥ 2 ^ 63 then (2 ^ 63 - 1 : Int)
      else if neg ∧ un > 2 ^ 63 then -(2 ^ 63 : Int)
      else if neg then -(un : Int) else (un : Int)

/-- The call `strconv.Atoi` with its error dropped (`port, _ := strconv.Atoi(ss[1])`),
for 64-bit `int`: the fast path for strings of 1 to 18 bytes (an optional sign, then
the digit loop; 0 on a syntax error), otherwise `ParseInt(s, 10, 0)`. -/
def atoi (s : List Nat) : Int :=
  if 0 < s.length ∧ s.length < 19 then
    let digits := if s.head? = some 45 ∨ s.head? = some 43 then s.tail else s
    if digits.length < 1 then 0
    else
      match atoiDigits digits 0 with
      | none => 0
      | some n => if s.head? = some 45 then -(n : Int) else (n : Int)
  else parseInt s

/-- The loop of `netip.parseIPv4` over the bytes of the string: `val` is the
octet being read, `digLen` its number of digits, `pos` the index of the
octet, `first` whether the byte is the first of the string (`i == 0`) and
`prevDot` whether the byte before it is a dot. -/
def parseIPv4Loop : List Nat → Bool → Bool → Nat → Nat → Nat → List Nat → Option (List Nat)
  | [], _, _, val, _, pos, fields =>
    if pos < 3 then none else some (fields.set 3 val)
  | c :: rest, first, prevDot, val, digLen, pos, fields =>
    if 48 ≤ c ∧ c ≤ 57 then
      if digLen = 1 ∧ val = 0 then none
      else if val * 10 + c - 48 > 255 then none
      else parseIPv4Loop rest false false (val * 10 + c - 48) (digLen + 1) pos fields
    else if c = 46 then
      if first ∨ rest = [] ∨ prevDot then none
      else if pos = 3 then none
      else parseIPv4Loop rest false true 0 0 (pos + 1) (fields.set pos val)
    else none

/-- The parser `netip.parseIPv4`: four decimal octets separated by dots. -/
def parseIPv4 (s : List Nat) : Option (List Nat) :=
  parseIPv4Loop s true false 0 0 0 [0, 0, 0, 0]

/-- The call `net.ParseIP` on a string without a colon (the argument of `dialTor` is a
field of a split on colons): the 16-byte form of a dotted-decimal IPv4 address,
or `none`; the IPv6 syntax needs a colon and is not modelled. -/
def parseIP (s : List Nat) : Option (List Nat) :=
  if 58 ∈ s then none
  else
    match parseIPv4 s with
    | none => none
    | some f => some ([0, 0, 0, 0, 0, 0, 0, 0, 0, 0, 255, 255] ++ f)

/-- What `dialTor` returns: its events, whether the returned connection is
non-nil, and whether the returned error is non-nil. -/
structure DialTorResult where
  events : List Event
  conn : Bool
  err : Bool
  deriving DecidableEq, Repr

/-- Function `dialTor`: the SOCKS5 client exchange with the relay.  `none` is the
index-out-of-range panic of `ss[1]`. -/
def dialTor (w : World) (addr : List Nat) : Option DialTorResult :=
  let ss := split 58 addr
  match ss with
  | [] => none
  | [_] => none
  | host :: f1 :: _ =>
    let port := atoi f1
    let r : Nat × List Nat :=
      match parseIP host with
      | some ip => (1, ip.drop 12)
      | none =>
        match w.resolve host with
        | some ipaddr => (1, ipaddr)
        | none => (3, (host.length % 256) :: host)
    let atyp := r.1
    let addrbytes := r.2
    if ¬ w.torDialOk then some ⟨[Event.dialRelay], false, true⟩
    else
      let port16 := (port % 65536).toNat
      some ⟨[Event.dialRelay,
             Event.relayWrite [5, 1, 0],
             Event.relayRead,
             Event.relayWrite [5, 1, 0, atyp],
             Event.relayWrite addrbytes,
             Event.relayWrite [port16 / 256, port16 % 256],
             Event.relayRead],
            true, !w.torReplyOk⟩

/-- Function `handle`: one session, as the list of its events.  The deferred calls run
last, the most recently deferred first. -/
def handle (w : World) : List Event :=
  match handshake w.clWriteOk w.input with
  | (ev, none) => ev ++ [Event.clClose]
  | (ev, some (dialAddr, rest)) =>
    let r := readHello w.re w.helloAvail rest
    let hello := r.1
    let tunnel := r.2
    if tunnel then
      match dialTor w dialAddr with
      | none => ev ++ [Event.crash, Event.clClose]
      | some t =>
        if t.err then ev ++ t.events ++ [Event.clClose]
        else ev ++ t.events ++ [Event.tgtWrite hello, Event.pump, Event.clClose]
    else
      if ¬ w.dialOk then ev ++ [Event.dial dialAddr, Event.clClose]
      else ev ++ [Event.dial dialAddr, Event.tgtWrite hello, Event.pump,
                  Event.tgtClose, Event.clClose]

/-- The address type and the address bytes that `dialTor` computes for the host
`ss[0]` (lines 318 to 329): type 1 with the last four bytes of a literal IP, type 1
with the resolved address, or type 3 with the length byte and the bytes of the host. -/
def relayAddr (w : World) (host : List Nat) : Nat × List Nat :=
  match parseIP host with
  | some ip => (1, ip.drop 12)
  | none =>
    match w.resolve host with
    | some ipaddr => (1, ipaddr)
    | none => (3, (host.length % 256) :: host)

/-! ## Observations on a trace -/

/-- All bytes passed to `clConn.Write` by `handle` itself, in order (what the
forwarding pump copies to the client is inside the event `pump`). -/
def clientWritten : List Event → List Nat
  | [] => []
  | Event.clWrite bs :: es => bs ++ clientWritten es
  | _ :: es => clientWritten es

/-- All bytes `dialTor` wrote to the relay connection, in order. -/
def relayWritten : List Event → List Nat
  | [] => []
  | Event.relayWrite bs :: es => bs ++ relayWritten es
  | _ :: es => relayWritten es

/-- The arguments of the calls `tgtConn.Write` made by `handle`, in order. -/
def tgtWrites : List Event → List (List Nat)
  | [] => []
  | Event.tgtWrite bs :: es => bs :: tgtWrites es
  | _ :: es => tgtWrites es

/-- The outbound dials of a trace (direct or to the relay), in order. -/
def dials : List Event → List Event
  | [] => []
  | Event.dial a :: es => Event.dial a :: dials es
  | Event.dialRelay :: es => Event.dialRelay :: dials es
  | _ :: es => dials es

/-- A world with the given client stream in which every dial and write
succeeds, no name resolves and the pattern is `re`. -/
def World.simple (input : List Nat) (re : List Nat → Bool) : World :=
  ⟨input, 10000, true, re, true, true, true, fun _ => none⟩

/-! ## Wire formats -/

/-- The complete client handshakes of the three wire formats: SOCKS4 CONNECT with a
literal destination other than 0.0.0.1, SOCKS4a CONNECT with a domain string, and the
SOCKS5 exchange with a 16-bit method count between 1 and 255 and address type 1. -/
inductive CompleteHandshake : List Nat → Prop where
  | socks4 (p1 p0 a b c d : Nat) (ident : List Nat)
      (ha : a < 256) (hb : b < 256) (hc : c < 256) (hd : d < 256)
      (hip : ¬ (a = 0 ∧ b = 0 ∧ c = 0 ∧ d = 1)) (hid : 0 ∉ ident) :
      CompleteHandshake ([4, 1, p1, p0, a, b, c, d] ++ ident ++ [0])
  | socks4a (p1 p0 : Nat) (ident domain : List Nat) (hid : 0 ∉ ident) (hdom : 0 ∉ domain) :
      CompleteHandshake ([4, 1, p1, p0, 0, 0, 0, 1] ++ ident ++ [0] ++ domain ++ [0])
  | socks5 (n : Nat) (meths : List Nat) (ver cmd rsv a b c d p1 p0 : Nat)
      (h1 : 1 ≤ n) (h2 : n ≤ 255) (hm : meths.length = n) :
      CompleteHandshake ([5, 0, n] ++ meths ++ [ver, cmd, rsv, 1, a, b, c, d, p1, p0])

/-! ## ini.go -/

/-- ASCII text as the list of its bytes. -/
def str (s : String) : List Nat := s.data.map Char.toNat

/-- The cutset `" \t"` of the trimming calls of `LoadINI`. -/
def isBlank (c : Nat) : Bool := c = 32 ∨ c = 9

/-- The call `bytes.TrimLeft(b, " \t")`. -/
def trimLeft (b : List Nat) : List Nat := b.dropWhile isBlank

/-- The call `bytes.TrimRight(b, " \t")`. -/
def trimRight (b : List Nat) : List Nat := (b.reverse.dropWhile isBlank).reverse

/-- The call `bytes.Trim(b, " \t")`. -/
def trim (b : List Nat) : List Nat := trimRight (trimLeft b)

/-- The call `bytes.Index(b, []byte{c})`: the index of the first `c`, or `-1`. -/
def index (c : Nat) (b : List Nat) : Int := if c ∈ b then (b.indexOf c : Int) else -1

/-- The call `bytes.SplitN(b, []byte{sep}, 2)`: cut at the first separator, if any. -/
def splitN2 (sep : Nat) (b : List Nat) : List (List Nat) :=
  if sep ∈ b then [b.takeWhile (fun c => c ≠ sep), (b.dropWhile (fun c => c ≠ sep)).tail]
  else [b]

/-- The constant `bufio.MaxScanTokenSize`. -/
def maxScanTokenSize : Nat := 64 * 1024

/-- The helper `dropCR` of `bufio.ScanLines`: drop one trailing carriage return. -/
def dropCR (l : List Nat) : List Nat := if l.getLast? = some 13 then l.dropLast else l

/-- The raw lines of a text: the pieces between newlines; what follows the last
newline is a line only when it is not empty. -/
def rawLines (text : List Nat) : List (List Nat) :=
  let ps := split 10 text
  if ps.getLast? = some [] then ps.dropLast else ps

/-- The tokens of `bufio.NewScanner(r)` with the default split function
`bufio.ScanLines`, in the order `sc.Scan()` yields them: each line without its
end-of-line marker (a newline, with one carriage return before it dropped).
Scanning stops for good at the first line that does not fit the buffer of
`bufio.MaxScanTokenSize` bytes. -/
def scanLines (text : List Nat) : List (List Nat) :=
  ((rawLines text).takeWhile (fun l => l.length < maxScanTokenSize)).map dropCR

/-- The type `INI`: a section with its name, the keys and subsection names in order
of appearance, the map `vals` and the map `secs`. -/
inductive INI where
  | mk (Name : List Nat) (Keys : List (List Nat)) (Sections : List (List Nat))
      (vals : List (List Nat × List Nat)) (secs : List (List Nat × INI))

/-- The field `Keys`. -/
def INI.Keys : INI → List (List Nat)
  | .mk _ k _ _ _ => k

/-- The field `Sections`. -/
def INI.Sections : INI → List (List Nat)
  | .mk _ _ s _ _ => s

/-- The field `vals`. -/
def INI.vals : INI → List (List Nat × List Nat)
  | .mk _ _ _ v _ => v

/-- The field `secs`. -/
def INI.secs : INI → List (List Nat × INI)
  | .mk _ _ _ _ s => s

/-- Function `newSection`: an empty section. -/
def newSection (sectionName : List Nat) : INI := .mk sectionName [] [] [] []

/-- Method `addSection` on the section itself: nothing changes when the name is
already in `secs`, otherwise the name is appended to `Sections` and a new
section is stored under it. -/
def INI.addSection (name : List Nat) : INI → INI
  | .mk N K S v secs =>
    if (secs.lookup name).isSome then .mk N K S v secs
    else .mk N K (S ++ [name]) v (secs ++ [(name, newSection name)])

/-- The two assignments of the default case of `LoadINI` on the current section:
`sec.Keys = append(sec.Keys, k)` and `sec.vals[k] = v`. -/
def INI.setVal (k v : List Nat) : INI → INI
  | .mk N K S vals secs => .mk N (K ++ [k]) S ((k, v) :: vals.filter (fun e => e.1 ≠ k)) secs

/-- Method `Val`: `ini.vals[key]`, the empty string for a missing key. -/
def INI.Val (ini : INI) (key : List Nat) : List Nat := (ini.vals.lookup key).getD []

/-- Method `Section`: `ini.secs[name]`, `none` for the nil pointer. -/
def INI.Section (ini : INI) (name : List Nat) : Option INI := ini.secs.lookup name

/-- Apply an update to the section that the pointer `sec` designates, given as the
path of section names from the global section. -/
def INI.modifyAt : List (List Nat) → (INI → INI) → INI → INI
  | [], f, ini => f ini
  | n :: p, f, .mk N K S v secs =>
    .mk N K S v (secs.map (fun e => if e.1 = n then (e.1, INI.modifyAt p f e.2) else e))

/-- The state of the loop of `LoadINI`: the global section and the pointer `sec`
(a path from the global section). -/
structure LoadState where
  global : INI
  sec : List (List Nat)

/-- The loop `for i := range name` of the section-header case: `sec` starts at
the global section and descends, adding sections; an empty name is an error. -/
def addSections : List (List Nat) → INI → List (List Nat) → Option LoadState
  | [], g, path => some ⟨g, path⟩
  | n :: rest, g, path =>
    if n.length = 0 then none
    else addSections rest (g.modifyAt path (INI.addSection n)) (path ++ [n])

/-- One iteration of the loop of `LoadINI` on the token `line`; `none` is the
return of an error. -/
def loadLine (st : LoadState) (line : List Nat) : Option LoadState :=
  let b := trimLeft line
  if b.length = 0 then some st
  else
    let b0 := b.headD 0
    if b0 = 59 then some st
    else if b0 = 93 ∨ b0 = 61 then none
    else if b0 = 91 then
      let i := index 93 b
      if i = -1 then none
      else if i ≠ (b.length : Int) - 1 then none
      else
        let b1 := trim ((b.take (b.length - 1)).drop 1)
        if b1.length = 0 then none
        else addSections (split 46 b1) st.global []
    else
      let s := splitN2 61 b
      if s.length ≠ 2 ∨ (s.getD 1 []).length = 0 then none
      else
        let k := trimRight (s.getD 0 [])
        let v := trimLeft (s.getD 1 [])
        some ⟨st.global.modifyAt st.sec (INI.setVal k v), st.sec⟩

/-- The loop `for sc.Scan()` of `LoadINI` over the remaining tokens. -/
def loadLines : List (List Nat) → LoadState → Option LoadState
  | [], st => some st
  | l :: ls, st =>
    match loadLine st l with
    | none => none
    | some st1 => loadLines ls st1

/-- Function `LoadINI` on the bytes the reader delivers: the global section, or
`none` for an error. -/
def LoadINI (text : List Nat) : Option INI :=
  (loadLines (scanLines text) ⟨newSection [], []⟩).map (fun st => st.global)

/-- The constant `fallbackCfg` of starmer.go. -/
def fallbackCfg : List Nat :=
  str "listenaddr = :1337\ntoraddr    = localhost:9050\npatt       = (imgur|sci-?hub|\\.onion$)\n"

/-- The keys `readCfg` reports as missing: those of `listenaddr`, `toraddr`,
`patt` whose value is the empty string. -/
def missingKeys (ini : INI) : List (List Nat) :=
  [str "listenaddr", str "toraddr", str "patt"].filter (fun k => ini.Val k = [])

/-! ## starmer.go: the control loop of `main` -/

/-- The effects of the control loop of `main` (console output left out). -/
inductive MainEvent where
  /-- The call `ln.Close()` on the listener with this number. -/
  | lnClose (ln : Nat)
  /-- The call `readCfg()`. -/
  | readCfg
  /-- The call `net.Listen("tcp", listenAddr)`. -/
  | listen (addr : List Nat)
  /-- The statement `go serve(ln, conns, cancel)` for the listener with this number. -/
  | goServe (ln : Nat)
  /-- The statement `go handle(c)` for the connection with this number. -/
  | goHandle (c : Nat)
  /-- The `return` of `main`. -/
  | exit
  deriving DecidableEq, Repr

/-- What one `select` of the control loop receives: a reload signal on `cfgNote`
(with the listen address the coming `readCfg()` yields and whether the coming
`net.Listen` succeeds), or an accepted connection on `conns`. -/
inductive Msg where
  | cfgNote (newListenAddr : List Nat) (listenOk : Bool)
  | conn (c : Nat)

/-- The variables `ln` (as a listener number) and `listenAddr` of `main`. -/
structure MainState where
  ln : Nat
  listenAddr : List Nat
  deriving DecidableEq, Repr

/-- One iteration of the `for { select { ... } }` of `main`: its effects in
program order and the next state, `none` when `main` returns. -/
def mainStep (st : MainState) : Msg → List MainEvent × Option MainState
  | .cfgNote addr ok =>
    if ¬ ok then
      ([MainEvent.lnClose st.ln, MainEvent.readCfg, MainEvent.listen addr, MainEvent.exit], none)
    else
      ([MainEvent.lnClose st.ln, MainEvent.readCfg, MainEvent.listen addr,
        MainEvent.goServe (st.ln + 1)], some ⟨st.ln + 1, addr⟩)
  | .conn c => ([MainEvent.goHandle c], some st)

/-- Whether some occurrence of `a` comes before some occurrence of `b` in a trace. -/
def precedes (a b : MainEvent) : List MainEvent → Bool
  | [] => false
  | e :: es => (decide (e = a) && decide (b ∈ es)) || precedes a b es

/-! ## Lemmas on the library primitives -/

theorem itoaFuel_fuel : ∀ (f1 f2 n : Nat), n < f1 → n < f2 → itoaFuel f1 n = itoaFuel f2 n := by
  intro f1
  induction f1 with
  | zero => intro f2 n h; omega
  | succ f1 ih =>
    intro f2 n h1 h2
    cases f2 with
    | zero => omega
    | succ f2 =>
      unfold itoaFuel
      by_cases h : n < 10
      · simp [h]
      · simp only [h, if_false]
        rw [ih f2 (n / 10) (by omega) (by omega)]

theorem itoa_lt {n : Nat} (h : n < 10) : itoa n = [48 + n] := by
  simp [itoa, itoaFuel, h]

theorem itoa_ge {n : Nat} (h : 10 ≤ n) : itoa n = itoa (n / 10) ++ [48 + n % 10] := by
  have h' : ¬ n < 10 := by omega
  simp only [itoa]
  rw [itoaFuel, if_neg h', itoaFuel_fuel n (n / 10 + 1) (n / 10) (by omega) (by omega)]

theorem itoa_digit (n : Nat) : ∀ c ∈ itoa n, 48 ≤ c ∧ c ≤ 57 := by
  induction n using Nat.strong_induction_on with
  | _ n ih =>
    by_cases h : n < 10
    · rw [itoa_lt h]; intro c hc; simp at hc; omega
    · rw [itoa_ge (by omega)]
      intro c hc
      rcases List.mem_append.mp hc with hc | hc
      · exact ih (n / 10) (by omega) c hc
      · simp at hc; omega

theorem itoa_ne_nil (n : Nat) : itoa n ≠ [] := by
  by_cases h : n < 10
  · rw [itoa_lt h]; simp
  · rw [itoa_ge (by omega)]; simp

theorem not_mem_itoa {c : Nat} (n : Nat) (h : c < 48 ∨ 57 < c) : c ∉ itoa n := by
  intro hc
  have := itoa_digit n c hc
  omega

theorem atoiDigits_itoa (n : Nat) : ∀ rest, atoiDigits (itoa n ++ rest) 0 = atoiDigits rest n := by
  induction n using Nat.strong_induction_on with
  | _ n ih =>
    intro rest
    by_cases h : n < 10
    · rw [itoa_lt h]
      have e : (48 + n + 256 - 48) % 256 = n := by omega
      rw [List.singleton_append, atoiDigits, e, if_neg (by omega)]
      congr 1
      omega
    · rw [itoa_ge (by omega), List.append_assoc, ih (n / 10) (by omega)]
      have e : (48 + n % 10 + 256 - 48) % 256 = n % 10 := by omega
      have e2 : n / 10 * 10 + n % 10 = n := by omega
      rw [List.singleton_append, atoiDigits, e, if_neg (by omega), e2]

theorem itoa_length (k : Nat) : ∀ n, n < 10 ^ (k + 1) → (itoa n).length ≤ k + 1 := by
  induction k with
  | zero =>
    intro n hn
    rw [itoa_lt (by simpa using hn)]
    simp
  | succ k ih =>
    intro n hn
    by_cases h : n < 10
    · rw [itoa_lt h]
      simp
    · have hdiv : n / 10 < 10 ^ (k + 1) := by
        rw [Nat.div_lt_iff_lt_mul (by omega)]
        rw [Nat.pow_succ] at hn
        exact hn
      rw [itoa_ge (by omega), List.length_append, List.length_singleton]
      have := ih (n / 10) hdiv
      omega

theorem atoi_itoa {n : Nat} (h : n < 10 ^ 18) : atoi (itoa n) = (n : Int) := by
  have hne := itoa_ne_nil n
  have hd := itoa_digit n
  have hlen := itoa_length 17 n h
  have hp := atoiDigits_itoa n []
  simp only [List.append_nil, atoiDigits] at hp
  cases hs : itoa n with
  | nil => exact absurd hs hne
  | cons c rest =>
    rw [hs] at hd hp hlen
    have hc := hd c (by simp)
    have h2 : ¬ c = 45 := by omega
    have h4 : ¬ c = 43 := by omega
    simp only [List.length_cons] at hlen
    have hl : rest.length + 1 < 19 := by omega
    simp [atoi, h2, h4, hp, hl]

theorem parseIPv4Loop_itoa (n : Nat) (hn : n ≤ 255) :
    ∀ (rest : List Nat) (first prevDot : Bool) (pos : Nat) (fields : List Nat),
      ∃ k, parseIPv4Loop (itoa n ++ rest) first prevDot 0 0 pos fields
        = parseIPv4Loop rest false false n (k + 1) pos fields := by
  induction n using Nat.strong_induction_on with
  | _ n ih =>
    intro rest first prevDot pos fields
    by_cases h : n < 10
    · refine ⟨0, ?_⟩
      rw [itoa_lt h, List.singleton_append, parseIPv4Loop, if_pos (by omega),
        if_neg (by omega), if_neg (by omega)]
      congr 1
      omega
    · obtain ⟨k, hk⟩ := ih (n / 10) (by omega) (by omega) ((48 + n % 10) :: rest)
        first prevDot pos fields
      refine ⟨k + 1, ?_⟩
      rw [itoa_ge (by omega), List.append_assoc, List.singleton_append, hk, parseIPv4Loop,
        if_pos (by omega), if_neg (by omega), if_neg (by omega)]
      congr 1
      omega

theorem parseIPv4_ip2str {a b c d : Nat} (ha : a ≤ 255) (hb : b ≤ 255) (hc : c ≤ 255)
    (hd : d ≤ 255) : parseIPv4 (ip2str (a, b, c, d)) = some [a, b, c, d] := by
  have e : ip2str (a, b, c, d)
      = itoa a ++ (46 :: (itoa b ++ (46 :: (itoa c ++ (46 :: (itoa d ++ [])))))) := by
    simp [ip2str]
  have nb : ∀ (x : Nat) (l : List Nat), ¬ (itoa x ++ l = []) := by
    intro x l hx
    exact itoa_ne_nil x (List.append_eq_nil.mp hx).1
  rw [e, parseIPv4]
  obtain ⟨k1, h1⟩ := parseIPv4Loop_itoa a ha
    (46 :: (itoa b ++ (46 :: (itoa c ++ (46 :: (itoa d ++ [])))))) true false 0 [0, 0, 0, 0]
  rw [h1, parseIPv4Loop, if_neg (by omega), if_pos rfl, if_neg (by simp [nb, itoa_ne_nil]),
    if_neg (by omega)]
  obtain ⟨k2, h2⟩ := parseIPv4Loop_itoa b hb
    (46 :: (itoa c ++ (46 :: (itoa d ++ [])))) false true (0 + 1) ([0, 0, 0, 0].set 0 a)
  rw [h2, parseIPv4Loop, if_neg (by omega), if_pos rfl, if_neg (by simp [nb, itoa_ne_nil]),
    if_neg (by omega)]
  obtain ⟨k3, h3⟩ := parseIPv4Loop_itoa c hc
    (46 :: (itoa d ++ [])) false true (0 + 1 + 1) (([0, 0, 0, 0].set 0 a).set (0 + 1) b)
  rw [h3, parseIPv4Loop, if_neg (by omega), if_pos rfl, if_neg (by simp [nb, itoa_ne_nil]),
    if_neg (by omega)]
  obtain ⟨k4, h4⟩ := parseIPv4Loop_itoa d hd
    [] false true (0 + 1 + 1 + 1)
    ((([0, 0, 0, 0].set 0 a).set (0 + 1) b).set (0 + 1 + 1) c)
  rw [h4, parseIPv4Loop, if_neg (by omega)]
  simp

theorem not_mem_ip2str {x : Nat} (ip : Nat × Nat × Nat × Nat) (h : x < 46 ∨ 57 < x) :
    x ∉ ip2str ip := by
  have h' : x < 48 ∨ 57 < x := by omega
  have hx : x ≠ 46 := by omega
  simp [ip2str, not_mem_itoa _ h', hx]

theorem parseIP_ip2str {a b c d : Nat} (ha : a ≤ 255) (hb : b ≤ 255) (hc : c ≤ 255)
    (hd : d ≤ 255) :
    parseIP (ip2str (a, b, c, d)) = some [0, 0, 0, 0, 0, 0, 0, 0, 0, 0, 255, 255, a, b, c, d] := by
  rw [parseIP, if_neg (not_mem_ip2str _ (by omega)), parseIPv4_ip2str ha hb hc hd]
  rfl

theorem ip2str_inj {a b c d a' b' c' d' : Nat} (ha : a ≤ 255) (hb : b ≤ 255) (hc : c ≤ 255)
    (hd : d ≤ 255) (ha' : a' ≤ 255) (hb' : b' ≤ 255) (hc' : c' ≤ 255) (hd' : d' ≤ 255)
    (h : ip2str (a, b, c, d) = ip2str (a', b', c', d')) :
    a = a' ∧ b = b' ∧ c = c' ∧ d = d' := by
  have h1 := parseIPv4_ip2str ha hb hc hd
  rw [h, parseIPv4_ip2str ha' hb' hc' hd'] at h1
  simpa [eq_comm] using h1

theorem split_not_mem {sep : Nat} : ∀ (xs : List Nat), sep ∉ xs → split sep xs = [xs] := by
  intro xs
  induction xs with
  | nil => intro _; rfl
  | cons x xs ih =>
    intro h
    have hx : ¬ x = sep := fun e => h (by simp [e])
    have hxs : sep ∉ xs := fun e => h (by simp [e])
    rw [split, if_neg hx, ih hxs]

theorem split_append {sep : Nat} : ∀ (xs ys : List Nat), sep ∉ xs →
    split sep (xs ++ sep :: ys) = xs :: split sep ys := by
  intro xs
  induction xs with
  | nil => intro ys _; simp [split]
  | cons x xs ih =>
    intro ys h
    have hx : ¬ x = sep := fun e => h (by simp [e])
    have hxs : sep ∉ xs := fun e => h (by simp [e])
    rw [List.cons_append, split, if_neg hx, ih ys hxs]

theorem readStr0_append : ∀ (xs rest : List Nat), 0 ∉ xs →
    readStr0 (xs ++ 0 :: rest) = (xs, rest) := by
  intro xs
  induction xs with
  | nil => intro rest _; simp [readStr0]
  | cons x xs ih =>
    intro rest h
    have hx : ¬ x = 0 := fun e => h (by simp [e])
    have hxs : 0 ∉ xs := fun e => h (by simp [e])
    rw [List.cons_append, readStr0, if_neg hx, ih rest hxs]

theorem readStr0_eof : ∀ (xs : List Nat), 0 ∉ xs → readStr0 xs = (xs, []) := by
  intro xs
  induction xs with
  | nil => intro _; rfl
  | cons x xs ih =>
    intro h
    have hx : ¬ x = 0 := fun e => h (by simp [e])
    have hxs : 0 ∉ xs := fun e => h (by simp [e])
    rw [readStr0, if_neg hx, ih hxs]

/-! ## Lemmas on the handshake and on traces -/

theorem ip2str_sentinel : ip2str (0, 0, 0, 1) = [48, 46, 48, 46, 48, 46, 49] := by decide

theorem ip2str_ne_sentinel {a b c d : Nat} (ha : a ≤ 255) (hb : b ≤ 255) (hc : c ≤ 255)
    (hd : d ≤ 255) (h : ¬ (a = 0 ∧ b = 0 ∧ c = 0 ∧ d = 1)) :
    ip2str (a, b, c, d) ≠ [48, 46, 48, 46, 48, 46, 49] := by
  intro e
  rw [← ip2str_sentinel] at e
  exact h (ip2str_inj ha hb hc hd (by omega) (by omega) (by omega) (by omega) e)

theorem handshake_socks4 (ok : Bool) {a b c d : Nat} (p1 p0 : Nat) (ident rest : List Nat)
    (ha : a ≤ 255) (hb : b ≤ 255) (hc : c ≤ 255) (hd : d ≤ 255)
    (hip : ¬ (a = 0 ∧ b = 0 ∧ c = 0 ∧ d = 1)) (hid : 0 ∉ ident) :
    handshake ok ([4, 1, p1, p0, a, b, c, d] ++ ident ++ 0 :: rest)
      = ([Event.clWrite granted4],
         some (ip2str (a, b, c, d) ++ [58] ++ itoa (256 * p1 + p0), rest)) := by
  have hne := ip2str_ne_sentinel ha hb hc hd hip
  simp [handshake, read, readStr0_append _ _ hid, hne]

theorem handshake_socks4a (ok : Bool) (p1 p0 : Nat) (ident domain rest : List Nat)
    (hid : 0 ∉ ident) (hdom : 0 ∉ domain) :
    handshake ok ([4, 1, p1, p0, 0, 0, 0, 1] ++ ident ++ 0 :: (domain ++ 0 :: rest))
      = ([Event.clWrite granted4], some (domain ++ [58] ++ itoa (256 * p1 + p0), rest)) := by
  simp [handshake, read, readStr0_append _ _ hid, readStr0_append _ _ hdom, ip2str_sentinel]

theorem handshake_socks5 (n : Nat) (meths : List Nat) (ver cmd rsv a b c d p1 p0 : Nat)
    (rest : List Nat) (h1 : 1 ≤ n) (h2 : n ≤ 255) (hm : meths.length = n) :
    handshake true ([5, 0, n] ++ meths ++ [ver, cmd, rsv, 1, a, b, c, d, p1, p0] ++ rest)
      = ([Event.clWrite [5, 0], Event.clWrite granted5],
         some (ip2str (a, b, c, d) ++ [58] ++ itoa (256 * p1 + p0), rest)) := by
  have hc : clamp n 1 255 = n := by simp [clamp]; omega
  have hpos : 0 < n := by omega
  simp [handshake, read, hc, hpos, hm]

theorem itoa_eq_digits (n : Nat) (h : 0 < n) :
    itoa n = ((Nat.digits 10 n).reverse.map (fun x => 48 + x)) := by
  induction n using Nat.strong_induction_on with
  | _ n ih =>
    by_cases hlt : n < 10
    · rw [itoa_lt hlt, Nat.digits_of_lt 10 n (by omega) hlt]
      rfl
    · rw [itoa_ge (by omega), ih (n / 10) (by omega) (by omega),
        Nat.digits_def' (by omega) h]
      simp

theorem clientWritten_append (xs ys : List Event) :
    clientWritten (xs ++ ys) = clientWritten xs ++ clientWritten ys := by
  induction xs with
  | nil => rfl
  | cons x xs ih => cases x <;> simp [clientWritten, ih]

theorem dials_append (xs ys : List Event) : dials (xs ++ ys) = dials xs ++ dials ys := by
  induction xs with
  | nil => rfl
  | cons x xs ih => cases x <;> simp [dials, ih]

theorem tgtWrites_append (xs ys : List Event) :
    tgtWrites (xs ++ ys) = tgtWrites xs ++ tgtWrites ys := by
  induction xs with
  | nil => rfl
  | cons x xs ih => cases x <;> simp [tgtWrites, ih]

theorem dialTor_events (w : World) (addr : List Nat) (t : DialTorResult)
    (h : dialTor w addr = some t) :
    clientWritten t.events = [] ∧ tgtWrites t.events = [] ∧ dials t.events = [Event.dialRelay] := by
  unfold dialTor at h
  rcases hs : split 58 addr with _ | ⟨host, _ | ⟨f1, tl⟩⟩
  · simp [hs] at h
  · simp [hs] at h
  · cases hd : w.torDialOk <;> simp [hs, hd] at h <;> subst h <;>
      simp [clientWritten, tgtWrites, dials]

theorem handle_none (w : World) (ev : List Event)
    (h : handshake w.clWriteOk w.input = (ev, none)) : handle w = ev ++ [Event.clClose] := by
  simp [handle, h]

theorem clientWritten_handle (w : World) :
    clientWritten (handle w) = clientWritten (handshake w.clWriteOk w.input).1 := by
  unfold handle
  split
  · next ev h => simp [h, clientWritten_append, clientWritten]
  · next ev dialAddr rest h =>
    simp only [h]
    split
    · split
      · simp [clientWritten_append, clientWritten]
      · next t ht =>
        have := (dialTor_events w _ t ht).1
        split <;> simp [clientWritten_append, clientWritten, this]
    · split <;> simp [clientWritten_append, clientWritten]

/-! ## Lemmas on `readHello` -/

theorem take_pad (got marker : List Nat) (m : Nat) (h0 : 0 ∉ marker)
    (hm : marker.length ≤ got.length + m) :
    (got ++ List.replicate m 0).take marker.length = marker ↔ marker <+: got := by
  rw [List.prefix_iff_eq_take]
  by_cases hk : marker.length ≤ got.length
  · rw [List.take_append_of_le_length hk]
    exact eq_comm
  · constructor
    · intro h
      exfalso
      apply h0
      rw [← h, List.take_append_eq_append_take, List.take_replicate]
      have hpos : 0 < min (marker.length - got.length) m := by
        simp only [lt_min_iff]; omega
      obtain ⟨j, hj⟩ := Nat.exists_eq_succ_of_ne_zero (Nat.pos_iff_ne_zero.mp hpos)
      rw [hj]
      simp [List.replicate_succ]
    · intro h
      exfalso
      have := congrArg List.length h
      simp at this
      omega

theorem connRead_length (avail m : Nat) (s got rest : List Nat)
    (h : connRead avail m s = some (got, rest)) :
    got.length ≤ m ∧ got = s.take (min m (min (max avail 1) s.length)) := by
  unfold connRead at h
  cases s with
  | nil => simp at h
  | cons x xs =>
    simp only [Option.some.injEq, Prod.mk.injEq] at h
    refine ⟨?_, h.1.symm⟩
    rw [← h.1, List.length_take]
    omega

theorem readHello_eq (re : List Nat → Bool) (avail : Nat) (s : List Nat) :
    readHello re avail s
      = (s.take (min helloBufSize (min (max avail 1) s.length)),
         if ([0x16] <+: s.take (min helloBufSize (min (max avail 1) s.length))
              ∨ [71, 69, 84] <+: s.take (min helloBufSize (min (max avail 1) s.length))
              ∨ [80, 79, 83, 84] <+: s.take (min helloBufSize (min (max avail 1) s.length)))
         then re (s.take (min helloBufSize (min (max avail 1) s.length))) else false) := by
  unfold readHello
  cases hr : connRead avail helloBufSize s with
  | none =>
    cases s with
    | nil => simp
    | cons x xs => simp [connRead] at hr
  | some p =>
    obtain ⟨got, rest⟩ := p
    obtain ⟨hlen, hgot⟩ := connRead_length avail helloBufSize s got rest hr
    rw [← hgot]
    have hb : helloBufSize = 10000 := rfl
    have t1 := take_pad got [0x16] (helloBufSize - got.length) (by decide)
      (by simp only [List.length_singleton]; omega)
    have t3 := take_pad got [71, 69, 84] (helloBufSize - got.length) (by decide)
      (by simp only [List.length_cons, List.length_nil]; omega)
    have t4 := take_pad got [80, 79, 83, 84] (helloBufSize - got.length) (by decide)
      (by simp only [List.length_cons, List.length_nil]; omega)
    simp only [List.length_cons, List.length_nil, List.length_singleton] at t1 t3 t4
    have g1 : helloBufSize ≥ 1 := by decide
    have g3 : helloBufSize ≥ 3 := by decide
    have g4 : helloBufSize ≥ 4 := by decide
    simp only [g1, g3, g4, true_and, t1, t3, t4, List.take_left']
    by_cases hmk : [0x16] <+: got ∨ [71, 69, 84] <+: got ∨ [80, 79, 83, 84] <+: got
    · simp [hmk]
    · simp [hmk]

/-! ## Lemmas on `dialTor` and on the replay of the hello -/

theorem split_ne_nil (sep : Nat) : ∀ (xs : List Nat), split sep xs ≠ [] := by
  intro xs
  induction xs with
  | nil => simp [split]
  | cons x xs ih =>
    rw [split]
    split
    · simp
    · split <;> simp

theorem split_two (sep : Nat) : ∀ (xs : List Nat), sep ∈ xs →
    ∃ host f1 tl, split sep xs = host :: f1 :: tl := by
  intro xs
  induction xs with
  | nil => intro h; simp at h
  | cons x xs ih =>
    intro h
    by_cases hx : x = sep
    · rw [split, if_pos hx]
      rcases hs : split sep xs with _ | ⟨f, fs⟩
      · exact absurd hs (split_ne_nil sep xs)
      · exact ⟨[], f, fs, rfl⟩
    · have hmem : sep ∈ xs := by
        rcases List.mem_cons.mp h with h | h
        · exact absurd h.symm hx
        · exact h
      obtain ⟨host, f1, tl, hs⟩ := ih hmem
      rw [split, if_neg hx, hs]
      exact ⟨x :: host, f1, tl, rfl⟩

theorem dialTor_some (w : World) (addr : List Nat) (h : 58 ∈ addr) :
    ∃ t, dialTor w addr = some t
      ∧ (w.torDialOk = true → w.torReplyOk = true → t.err = false) := by
  obtain ⟨host, f1, tl, hs⟩ := split_two 58 addr h
  unfold dialTor
  cases hd : w.torDialOk <;> simp [hs]

theorem handle_replay (w : World) (ev : List Event) (addr payload : List Nat)
    (hs : handshake w.clWriteOk w.input = (ev, some (addr, payload)))
    (h58 : 58 ∈ addr) (hev : tgtWrites ev = []) :
    (∀ bs ∈ tgtWrites (handle w), bs = (readHello w.re w.helloAvail payload).1)
      ∧ ((if (readHello w.re w.helloAvail payload).2 = true
            then w.torDialOk = true ∧ w.torReplyOk = true else w.dialOk = true) →
          ∃ pre post, handle w = pre ++ [Event.tgtWrite (readHello w.re w.helloAvail payload).1,
              Event.pump] ++ post ∧ tgtWrites pre = []) := by
  obtain ⟨t, ht, hterr⟩ := dialTor_some w addr h58
  have hte := (dialTor_events w addr t ht).2.1
  unfold handle
  simp only [hs]
  cases htun : (readHello w.re w.helloAvail payload).2
  · simp only [Bool.false_eq_true, if_false]
    cases hd : w.dialOk
    · simp [tgtWrites_append, tgtWrites, hev]
    · simp only [not_true_eq_false, if_false]
      refine ⟨by simp [tgtWrites_append, tgtWrites, hev], fun _ => ?_⟩
      exact ⟨ev ++ [Event.dial addr], [Event.tgtClose, Event.clClose], by simp,
        by simp [tgtWrites_append, tgtWrites, hev]⟩
  · simp only [if_true, ht]
    cases hte' : t.err
    · simp only [Bool.false_eq_true, if_false]
      refine ⟨by simp [tgtWrites_append, tgtWrites, hev, hte], fun _ => ?_⟩
      exact ⟨ev ++ t.events, [Event.clClose], by simp,
        by simp [tgtWrites_append, hev, hte]⟩
    · simp only [if_true]
      refine ⟨by simp [tgtWrites_append, tgtWrites, hev, hte], fun hc => ?_⟩
      have := hterr hc.1 hc.2
      rw [hte'] at this
      exact absurd this (by simp)

theorem handshake_short_socks4 (ok : Bool) (s : List Nat) (h : s.length < 7) :
    handshake ok (4 :: s) = ([], none) := by
  have h' : ¬ 7 ≤ s.length := by omega
  simp [handshake, read, h']

theorem handle_short_socks4 (w : World) (s : List Nat) (h : s.length < 7)
    (hin : w.input = [] ∨ w.input = 4 :: s) : handle w = [Event.clClose] := by
  rcases hin with hin | hin
  · exact handle_none w [] (by rw [hin]; rfl)
  · exact handle_none w [] (by rw [hin]; exact handshake_short_socks4 _ s h)

/-! ## The claims -/

/-- C1: for every client stream that starts with a complete SOCKS4 CONNECT request
`04 01 p1 p0 a b c d <ident> 00` whose destination is not 0.0.0.1, the handshake of
`handle` computes the dial address `a.b.c.d:P` (dotted decimal, `P = 256*p1 + p0`),
leaves the bytes after the request unread, and the bytes written to the client are
exactly `00 5A 00 00 00 00 00 00`. -/
theorem C1_socks4_connect (w : World) (p1 p0 a b c d : Nat) (ident rest : List Nat)
    (ha : a < 256) (hb : b < 256) (hc : c < 256) (hd : d < 256)
    (hip : ¬ (a = 0 ∧ b = 0 ∧ c = 0 ∧ d = 1)) (hid : 0 ∉ ident)
    (hin : w.input = [4, 1, p1, p0, a, b, c, d] ++ ident ++ [0] ++ rest) :
    (handshake w.clWriteOk w.input).2
        = some (itoa a ++ [46] ++ itoa b ++ [46] ++ itoa c ++ [46] ++ itoa d ++ [58]
                  ++ itoa (256 * p1 + p0), rest)
      ∧ clientWritten (handle w) = [0, 0x5A, 0, 0, 0, 0, 0, 0] := by
  have h := handshake_socks4 w.clWriteOk p1 p0 ident rest (Nat.le_of_lt_succ ha)
    (Nat.le_of_lt_succ hb) (Nat.le_of_lt_succ hc) (Nat.le_of_lt_succ hd) hip hid
  have e : w.input = [4, 1, p1, p0, a, b, c, d] ++ ident ++ 0 :: rest := by simp [hin]
  rw [clientWritten_handle, e, h]
  simp [ip2str, clientWritten, granted4]

/-- Witness of C1: CONNECT to 93.184.216.34:443 with identification "A". -/
theorem C1_socks4_connect_witness :
    (handshake true [4, 1, 1, 187, 93, 184, 216, 34, 65, 0, 22, 3, 1]).2
        = some ([57, 51, 46, 49, 56, 52, 46, 50, 49, 54, 46, 51, 52, 58, 52, 52, 51], [22, 3, 1])
      ∧ clientWritten (handle (World.simple [4, 1, 1, 187, 93, 184, 216, 34, 65, 0, 22, 3, 1]
          (fun _ => true))) = [0, 0x5A, 0, 0, 0, 0, 0, 0] :=
  C1_socks4_connect (World.simple [4, 1, 1, 187, 93, 184, 216, 34, 65, 0, 22, 3, 1]
    (fun _ => true)) 1 187 93 184 216 34 [65] [22, 3, 1]
    (by decide) (by decide) (by decide) (by decide) (by decide) (by decide) rfl

/-- C2: for every complete SOCKS4a request (`04 01 p1 p0 00 00 00 01`, a NUL-terminated
identification string, a NUL-terminated domain string), the dial address computed by
`handle` is the domain string's bytes verbatim, a colon, and the decimal of the
big-endian port `256*p1 + p0`; the bytes after the domain's NUL are left unread. -/
theorem C2_socks4a_domain (w : World) (p1 p0 : Nat) (ident domain rest : List Nat)
    (hid : 0 ∉ ident) (hdom : 0 ∉ domain)
    (hin : w.input = [4, 1, p1, p0, 0, 0, 0, 1] ++ ident ++ [0] ++ domain ++ [0] ++ rest) :
    (handshake w.clWriteOk w.input).2 = some (domain ++ [58] ++ itoa (256 * p1 + p0), rest) := by
  have h := handshake_socks4a w.clWriteOk p1 p0 ident domain rest hid hdom
  have e : w.input = [4, 1, p1, p0, 0, 0, 0, 1] ++ ident ++ 0 :: (domain ++ 0 :: rest) := by
    simp [hin]
  rw [e, h]

/-- Witness of C2: identification "AB", domain "e:x" and port 80. -/
theorem C2_socks4a_domain_witness :
    (handshake true [4, 1, 0, 80, 0, 0, 0, 1, 65, 66, 0, 101, 58, 120, 0, 22]).2
      = some ([101, 58, 120, 58, 56, 48], [22]) :=
  C2_socks4a_domain (World.simple [4, 1, 0, 80, 0, 0, 0, 1, 65, 66, 0, 101, 58, 120, 0, 22]
    (fun _ => true)) 0 80 [65, 66] [101, 58, 120] [22] (by decide) (by decide) rfl

/-- C3: for every complete SOCKS5 exchange `05 00 n <n method bytes> ver cmd rsv 01 a b c d
p1 p0` with `1 ≤ n ≤ 255`, the bytes `handle` writes to the client are the
method-selection reply `05 00` followed by exactly `05 00 00 01 00 00 00 00 00 00`, and
(when that last write returns without error) the dial address is `a.b.c.d:P` with
`P = 256*p1 + p0`, the bytes after the request being left unread. -/
theorem C3_socks5_ipv4 (w : World) (n : Nat) (meths : List Nat)
    (ver cmd rsv a b c d p1 p0 : Nat) (rest : List Nat)
    (h1 : 1 ≤ n) (h2 : n ≤ 255) (hm : meths.length = n)
    (hin : w.input = [5, 0, n] ++ meths ++ [ver, cmd, rsv, 1, a, b, c, d, p1, p0] ++ rest) :
    clientWritten (handle w) = [5, 0] ++ [5, 0, 0, 1, 0, 0, 0, 0, 0, 0]
      ∧ (w.clWriteOk = true →
          (handshake w.clWriteOk w.input).2
            = some (itoa a ++ [46] ++ itoa b ++ [46] ++ itoa c ++ [46] ++ itoa d ++ [58]
                      ++ itoa (256 * p1 + p0), rest)) := by
  have h := handshake_socks5 n meths ver cmd rsv a b c d p1 p0 rest h1 h2 hm
  constructor
  · rw [clientWritten_handle, hin]
    cases hw : w.clWriteOk
    · have hc : clamp n 1 255 = n := by simp [clamp]; omega
      have hpos : 0 < n := by omega
      simp [handshake, read, hc, hpos, hm, clientWritten, granted5]
    · rw [h]; simp [clientWritten, granted5]
  · intro hw
    rw [hw, hin, h]
    simp [ip2str]

/-- Witness of C3: one method, CONNECT to 1.2.3.4:80. -/
theorem C3_socks5_ipv4_witness :
    clientWritten (handle (World.simple [5, 0, 1, 0, 5, 1, 0, 1, 1, 2, 3, 4, 0, 80, 71]
        (fun _ => false))) = [5, 0] ++ [5, 0, 0, 1, 0, 0, 0, 0, 0, 0]
      ∧ (true = true →
          (handshake true [5, 0, 1, 0, 5, 1, 0, 1, 1, 2, 3, 4, 0, 80, 71]).2
            = some ([49, 46, 50, 46, 51, 46, 52, 58, 56, 48], [71])) :=
  C3_socks5_ipv4 (World.simple [5, 0, 1, 0, 5, 1, 0, 1, 1, 2, 3, 4, 0, 80, 71]
    (fun _ => false)) 1 [0] 5 1 0 1 2 3 4 0 80 [71] (by decide) (by decide) rfl rfl

/-- C4: for every SOCKS5 exchange `05 n1 n0 <method bytes> ver cmd rsv atyp ...` whose
address type byte is not 1, whatever the method count, the session is the
method-selection reply `05 00` and the close of the client connection: no further
byte is written to the client and no outbound connection is dialled. -/
theorem C4_socks5_unsupported_atyp (w : World) (n1 n0 : Nat) (meths : List Nat)
    (ver cmd rsv atyp : Nat) (rest : List Nat)
    (hm : meths.length = if 256 * n1 + n0 > 0 then clamp (256 * n1 + n0) 1 255 else 0)
    (hat : atyp ≠ 1)
    (hin : w.input = [5, n1, n0] ++ meths ++ [ver, cmd, rsv, atyp] ++ rest) :
    handle w = [Event.clWrite [5, 0], Event.clClose]
      ∧ clientWritten (handle w) = [5, 0] ∧ dials (handle w) = [] := by
  have hs : handshake w.clWriteOk w.input = ([Event.clWrite [5, 0]], none) := by
    rw [hin]
    by_cases hn : 256 * n1 + n0 > 0
    · rw [if_pos hn] at hm
      simp [handshake, read, hn, ← hm, hat]
    · rw [if_neg hn] at hm
      have hnil : meths = [] := List.length_eq_zero.mp hm
      simp [handshake, read, hn, hnil, hat]
  have h := handle_none w _ hs
  rw [h]
  simp [clientWritten, dials]

/-- Witness of C4: one method, then a request with address type 3 (domain). -/
theorem C4_socks5_unsupported_atyp_witness :
    handle (World.simple [5, 0, 1, 0, 5, 1, 0, 3, 3, 97, 46, 98, 0, 80] (fun _ => true))
        = [Event.clWrite [5, 0], Event.clClose]
      ∧ clientWritten (handle (World.simple [5, 0, 1, 0, 5, 1, 0, 3, 3, 97, 46, 98, 0, 80]
          (fun _ => true))) = [5, 0]
      ∧ dials (handle (World.simple [5, 0, 1, 0, 5, 1, 0, 3, 3, 97, 46, 98, 0, 80]
          (fun _ => true))) = [] :=
  C4_socks5_unsupported_atyp
    (World.simple [5, 0, 1, 0, 5, 1, 0, 3, 3, 97, 46, 98, 0, 80] (fun _ => true))
    0 1 [0] 5 1 0 3 [3, 97, 46, 98, 0, 80] (by decide) (by decide) rfl

/-- C5: for every client stream whose first byte is neither 4 nor 5, whatever follows,
`handle` only closes the client connection: it writes no byte to the client and dials
no outbound connection. -/
theorem C5_bad_version (w : World) (ver : Nat) (rest : List Nat)
    (h4 : ver ≠ 4) (h5 : ver ≠ 5) (hin : w.input = ver :: rest) :
    handle w = [Event.clClose]
      ∧ clientWritten (handle w) = [] ∧ dials (handle w) = [] := by
  have hs : handshake w.clWriteOk w.input = ([], none) := by
    rw [hin]
    simp [handshake, read, h4, h5]
  have h := handle_none w _ hs
  rw [h]
  simp [clientWritten, dials]

/-- Witness of C5: version byte 6 followed by a well-formed SOCKS4 request body. -/
theorem C5_bad_version_witness :
    handle (World.simple [6, 1, 0, 80, 1, 2, 3, 4, 0, 22] (fun _ => true)) = [Event.clClose]
      ∧ clientWritten (handle (World.simple [6, 1, 0, 80, 1, 2, 3, 4, 0, 22] (fun _ => true)))
          = []
      ∧ dials (handle (World.simple [6, 1, 0, 80, 1, 2, 3, 4, 0, 22] (fun _ => true))) = [] :=
  C5_bad_version (World.simple [6, 1, 0, 80, 1, 2, 3, 4, 0, 22] (fun _ => true)) 6
    [1, 0, 80, 1, 2, 3, 4, 0, 22] (by decide) (by decide) rfl

/-- C6: for every captured hello (the bytes returned by the single read of `readHello`)
that begins neither with the byte 0x16, nor with "GET", nor with "POST", `readHello`
returns `tunnel = false` (Direct) whatever the pattern is, although the marker test
is made on the zero-filled buffer of 10000 bytes. -/
theorem C6_no_marker_direct (re : List Nat → Bool) (avail : Nat) (s : List Nat)
    (h16 : ¬ [0x16] <+: (readHello re avail s).1)
    (hget : ¬ [71, 69, 84] <+: (readHello re avail s).1)
    (hpost : ¬ [80, 79, 83, 84] <+: (readHello re avail s).1) :
    (readHello re avail s).2 = false := by
  rw [readHello_eq] at h16 hget hpost ⊢
  simp only at h16 hget hpost ⊢
  rw [if_neg (by tauto)]

/-- Witness of C6: the hello "GE" with a pattern that matches everything. -/
theorem C6_no_marker_direct_witness :
    (readHello (fun _ => true) 2 [71, 69, 84, 32]).2 = false :=
  C6_no_marker_direct (fun _ => true) 2 [71, 69, 84, 32] (by decide) (by decide) (by decide)

/-- C7: for every captured hello that begins with 0x16, "GET" or "POST" and every
pattern `re`, `readHello` returns `tunnel = true` (ViaRelay) if and only if `re`
matches the captured bytes, which are exactly the bytes read (a prefix of the stream
of at most 10000 bytes, without the zero padding of the buffer); with a pattern that
matches everything the verdict is ViaRelay. -/
theorem C7_marker_iff_match (re : List Nat → Bool) (avail : Nat) (s : List Nat)
    (hmk : [0x16] <+: (readHello re avail s).1 ∨ [71, 69, 84] <+: (readHello re avail s).1
      ∨ [80, 79, 83, 84] <+: (readHello re avail s).1) :
    ((readHello re avail s).2 = true ↔ re (readHello re avail s).1 = true)
      ∧ (readHello re avail s).1 <+: s
      ∧ (readHello re avail s).1.length ≤ 10000
      ∧ (readHello (fun _ => true) avail s).2 = true := by
  rw [readHello_eq] at hmk ⊢
  simp only at hmk ⊢
  rw [readHello_eq]
  simp only
  rw [if_pos hmk, if_pos hmk]
  refine ⟨Iff.rfl, List.take_prefix _ _, ?_, rfl⟩
  rw [List.length_take]
  have : helloBufSize = 10000 := rfl
  omega

/-- Witness of C7: a TLS record whose first 3 bytes are captured, with a pattern that
looks for the byte 3. -/
theorem C7_marker_iff_match_witness :
    ((readHello (fun bs => decide (3 ∈ bs)) 3 [22, 3, 1, 9]).2 = true
        ↔ (fun bs => decide (3 ∈ bs)) (readHello (fun bs => decide (3 ∈ bs)) 3 [22, 3, 1, 9]).1
            = true)
      ∧ (readHello (fun bs => decide (3 ∈ bs)) 3 [22, 3, 1, 9]).1 <+: [22, 3, 1, 9]
      ∧ (readHello (fun bs => decide (3 ∈ bs)) 3 [22, 3, 1, 9]).1.length ≤ 10000
      ∧ (readHello (fun _ => true) 3 [22, 3, 1, 9]).2 = true :=
  C7_marker_iff_match (fun bs => decide (3 ∈ bs)) 3 [22, 3, 1, 9] (by decide)

/-- C8: for every client stream made of a complete SOCKS4, SOCKS4a or SOCKS5 handshake
followed by payload bytes, the handshake leaves exactly the payload unread, the hello
captured by `readHello` is a prefix of the payload of at most 10000 bytes, `handle`
never passes anything but that hello to `tgtConn.Write`, and when the outbound
connection is established the write of the hello is the step right before the
forwarding pump. -/
theorem C8_hello_replayed (w : World) (hs payload : List Nat) (hhs : CompleteHandshake hs)
    (hw : w.clWriteOk = true) (hin : w.input = hs ++ payload) :
    (handshake w.clWriteOk w.input).2.map Prod.snd = some payload
      ∧ (readHello w.re w.helloAvail payload).1 <+: payload
      ∧ (readHello w.re w.helloAvail payload).1.length ≤ 10000
      ∧ (∀ bs ∈ tgtWrites (handle w), bs = (readHello w.re w.helloAvail payload).1)
      ∧ ((if (readHello w.re w.helloAvail payload).2 = true
            then w.torDialOk = true ∧ w.torReplyOk = true else w.dialOk = true) →
          ∃ pre post, handle w = pre ++ [Event.tgtWrite (readHello w.re w.helloAvail payload).1,
              Event.pump] ++ post ∧ tgtWrites pre = []) := by
  have key : ∃ ev addr, handshake w.clWriteOk w.input = (ev, some (addr, payload))
      ∧ 58 ∈ addr ∧ tgtWrites ev = [] := by
    cases hhs with
    | socks4 p1 p0 a b c d ident ha hb hc hd hip hid =>
      have h := handshake_socks4 w.clWriteOk p1 p0 ident payload (Nat.le_of_lt_succ ha)
        (Nat.le_of_lt_succ hb) (Nat.le_of_lt_succ hc) (Nat.le_of_lt_succ hd) hip hid
      have e : w.input = [4, 1, p1, p0, a, b, c, d] ++ ident ++ 0 :: payload := by simp [hin]
      exact ⟨[Event.clWrite granted4], ip2str (a, b, c, d) ++ [58] ++ itoa (256 * p1 + p0),
        by rw [e, h], by simp, by simp [tgtWrites]⟩
    | socks4a p1 p0 ident domain hid hdom =>
      have h := handshake_socks4a w.clWriteOk p1 p0 ident domain payload hid hdom
      have e : w.input
          = [4, 1, p1, p0, 0, 0, 0, 1] ++ ident ++ 0 :: (domain ++ 0 :: payload) := by
        simp [hin]
      exact ⟨[Event.clWrite granted4], domain ++ [58] ++ itoa (256 * p1 + p0),
        by rw [e, h], by simp, by simp [tgtWrites]⟩
    | socks5 n meths ver cmd rsv a b c d p1 p0 h1 h2 hm =>
      have h := handshake_socks5 n meths ver cmd rsv a b c d p1 p0 payload h1 h2 hm
      exact ⟨[Event.clWrite [5, 0], Event.clWrite granted5],
        ip2str (a, b, c, d) ++ [58] ++ itoa (256 * p1 + p0),
        by rw [hin, hw, h], by simp, by simp [tgtWrites]⟩
  obtain ⟨ev, addr, hsk, h58, hev⟩ := key
  have hr := handle_replay w ev addr payload hsk h58 hev
  refine ⟨by rw [hsk]; rfl, ?_, ?_, hr.1, hr.2⟩
  · rw [readHello_eq]
    exact List.take_prefix _ _
  · rw [readHello_eq]
    simp only [List.length_take]
    have : helloBufSize = 10000 := rfl
    omega

/-- Witness of C8: a SOCKS4 CONNECT to 1.2.3.4:80 followed by the payload `16 03 01`. -/
theorem C8_hello_replayed_witness :
    (handshake true ([4, 1, 0, 80, 1, 2, 3, 4, 0] ++ [22, 3, 1])).2.map Prod.snd
        = some [22, 3, 1]
      ∧ (readHello (fun _ => true) 10000 [22, 3, 1]).1 <+: [22, 3, 1]
      ∧ (readHello (fun _ => true) 10000 [22, 3, 1]).1.length ≤ 10000
      ∧ (∀ bs ∈ tgtWrites (handle (World.simple ([4, 1, 0, 80, 1, 2, 3, 4, 0] ++ [22, 3, 1])
            (fun _ => true))), bs = (readHello (fun _ => true) 10000 [22, 3, 1]).1)
      ∧ ((if (readHello (fun _ => true) 10000 [22, 3, 1]).2 = true
            then true = true ∧ true = true else true = true) →
          ∃ pre post, handle (World.simple ([4, 1, 0, 80, 1, 2, 3, 4, 0] ++ [22, 3, 1])
              (fun _ => true))
            = pre ++ [Event.tgtWrite (readHello (fun _ => true) 10000 [22, 3, 1]).1,
                Event.pump] ++ post ∧ tgtWrites pre = []) :=
  C8_hello_replayed (World.simple ([4, 1, 0, 80, 1, 2, 3, 4, 0] ++ [22, 3, 1]) (fun _ => true))
    [4, 1, 0, 80, 1, 2, 3, 4, 0] [22, 3, 1]
    (CompleteHandshake.socks4 0 80 1 2 3 4 [] (by decide) (by decide) (by decide) (by decide)
      (by decide) (by decide)) rfl rfl

/-- C9: for every IPv4 address a.b.c.d and every port P in 0..65535, `dialTor` called
with the string `a.b.c.d:P` (and a relay that accepts the connection) writes to the
relay the greeting `05 01 00`, then `05 01 00 01`, the four bytes `a b c d` and the
port as two big-endian bytes, and nothing else. -/
theorem C9_relay_request_ipv4 (w : World) (a b c d P : Nat)
    (ha : a < 256) (hb : b < 256) (hc : c < 256) (hd : d < 256) (hP : P < 65536)
    (hdial : w.torDialOk = true) :
    ∃ t, dialTor w (itoa a ++ [46] ++ itoa b ++ [46] ++ itoa c ++ [46] ++ itoa d ++ [58]
            ++ itoa P) = some t
      ∧ t.events = [Event.dialRelay, Event.relayWrite [5, 1, 0], Event.relayRead,
          Event.relayWrite [5, 1, 0, 1], Event.relayWrite [a, b, c, d],
          Event.relayWrite [P / 256, P % 256], Event.relayRead]
      ∧ relayWritten t.events = [5, 1, 0] ++ [5, 1, 0, 1, a, b, c, d, P / 256, P % 256] := by
  have e : itoa a ++ [46] ++ itoa b ++ [46] ++ itoa c ++ [46] ++ itoa d ++ [58] ++ itoa P
      = ip2str (a, b, c, d) ++ 58 :: itoa P := by simp [ip2str]
  have hsplit : split 58 (ip2str (a, b, c, d) ++ 58 :: itoa P)
      = [ip2str (a, b, c, d), itoa P] := by
    rw [split_append _ _ (not_mem_ip2str _ (by omega)),
      split_not_mem _ (not_mem_itoa _ (by omega))]
  have hip := parseIP_ip2str (Nat.le_of_lt_succ ha) (Nat.le_of_lt_succ hb)
    (Nat.le_of_lt_succ hc) (Nat.le_of_lt_succ hd)
  have hport : atoi (itoa P) = (P : Int) := atoi_itoa (by omega)
  have hmod : ((P : Int) % 65536).toNat = P := by omega
  rw [e]
  unfold dialTor
  simp [hsplit, hip, hport, hdial, hmod, relayWritten]

/-- Witness of C9: the address 93.184.216.34:443. -/
theorem C9_relay_request_ipv4_witness :
    ∃ t, dialTor (World.simple [] (fun _ => true))
          [57, 51, 46, 49, 56, 52, 46, 50, 49, 54, 46, 51, 52, 58, 52, 52, 51] = some t
      ∧ t.events = [Event.dialRelay, Event.relayWrite [5, 1, 0], Event.relayRead,
          Event.relayWrite [5, 1, 0, 1], Event.relayWrite [93, 184, 216, 34],
          Event.relayWrite [1, 187], Event.relayRead]
      ∧ relayWritten t.events = [5, 1, 0, 5, 1, 0, 1, 93, 184, 216, 34, 1, 187] :=
  C9_relay_request_ipv4 (World.simple [] (fun _ => true)) 93 184 216 34 443
    (by decide) (by decide) (by decide) (by decide) (by decide) rfl

/-- C10 (the code at the failing inputs): a SOCKS5 stream that ends right after the
version byte still gets the reply `05 00`; a SOCKS5 stream that ends inside the
address gets `05 00` and the request-granted frame, and 0.0.0.0:0 is dialled; a SOCKS4
stream that ends before the NUL of the identification string gets the
request-granted frame, and its destination 1.2.3.4:80 is dialled. -/
theorem C10_truncated_handshake_answered :
    handle (World.simple [5] (fun _ => true)) = [Event.clWrite [5, 0], Event.clClose]
      ∧ handle (World.simple [5, 0, 1, 0, 5, 1, 0, 1, 1, 2] (fun _ => true))
          = [Event.clWrite [5, 0], Event.clWrite [5, 0, 0, 1, 0, 0, 0, 0, 0, 0],
             Event.dial [48, 46, 48, 46, 48, 46, 48, 58, 48], Event.tgtWrite [], Event.pump,
             Event.tgtClose, Event.clClose]
      ∧ handle (World.simple [4, 1, 0, 80, 1, 2, 3, 4, 65, 66] (fun _ => true))
          = [Event.clWrite [0, 0x5A, 0, 0, 0, 0, 0, 0],
             Event.dial [49, 46, 50, 46, 51, 46, 52, 58, 56, 48], Event.tgtWrite [], Event.pump,
             Event.tgtClose, Event.clClose] := by
  decide

/-! ## Further lemmas: sessions, the method count, domain hosts, `LoadINI` -/

theorem handle_closes_client (w : World) : ∃ pre, handle w = pre ++ [Event.clClose] := by
  unfold handle
  split
  · next ev h => exact ⟨ev, rfl⟩
  · next ev dialAddr rest h =>
    simp only
    split
    · split
      · exact ⟨ev ++ [Event.crash], by simp⟩
      · next t ht =>
        split
        · exact ⟨ev ++ t.events, rfl⟩
        · exact ⟨ev ++ t.events ++ [Event.tgtWrite (readHello w.re w.helloAvail rest).1, Event.pump], by simp⟩
    · split
      · exact ⟨ev ++ [Event.dial dialAddr], by simp⟩
      · exact ⟨ev ++ [Event.dial dialAddr, Event.tgtWrite (readHello w.re w.helloAvail rest).1, Event.pump, Event.tgtClose],
          by simp⟩

theorem handshake_socks5_count (n1 n0 : Nat) (meths : List Nat)
    (ver cmd rsv a b c d p1 p0 : Nat) (rest : List Nat)
    (hm : meths.length = if 256 * n1 + n0 = 0 then 0 else clamp (256 * n1 + n0) 1 255) :
    handshake true ([5, n1, n0] ++ meths ++ [ver, cmd, rsv, 1, a, b, c, d, p1, p0] ++ rest)
      = ([Event.clWrite [5, 0], Event.clWrite granted5],
         some (ip2str (a, b, c, d) ++ [58] ++ itoa (256 * p1 + p0), rest)) := by
  by_cases hn : 256 * n1 + n0 = 0
  · rw [if_pos hn] at hm
    have hnil : meths = [] := List.length_eq_zero.mp hm
    have h1 : n1 = 0 := by omega
    have h0 : n0 = 0 := by omega
    subst h1 h0 hnil
    simp [handshake, read]
  · rw [if_neg hn] at hm
    have hpos : 256 * n1 + n0 > 0 := by omega
    simp [handshake, read, hpos, ← hm]

theorem dialTor_domain (w : World) (host : List Nat) (P : Nat)
    (hcolon : 58 ∉ host) (hip : parseIP host = none) (hres : w.resolve host = none)
    (hP : P < 65536) (hdial : w.torDialOk = true) :
    dialTor w (host ++ [58] ++ itoa P)
      = some ⟨[Event.dialRelay, Event.relayWrite [5, 1, 0], Event.relayRead,
          Event.relayWrite [5, 1, 0, 3], Event.relayWrite ((host.length % 256) :: host),
          Event.relayWrite [P / 256, P % 256], Event.relayRead], true, !w.torReplyOk⟩ := by
  have e : host ++ [58] ++ itoa P = host ++ 58 :: itoa P := by simp
  have hsplit : split 58 (host ++ 58 :: itoa P) = [host, itoa P] := by
    rw [split_append _ _ hcolon, split_not_mem _ (not_mem_itoa _ (by omega))]
  have hport : atoi (itoa P) = (P : Int) := atoi_itoa (by omega)
  have hmod : ((P : Int) % 65536).toNat = P := by omega
  rw [e]
  unfold dialTor
  simp [hsplit, hip, hres, hport, hdial, hmod]

theorem parseIP_not_digit (c : Nat) (t : List Nat) (h : c < 46 ∨ 57 < c) :
    parseIP (c :: t) = none := by
  have h1 : ¬ (48 ≤ c ∧ c ≤ 57) := by omega
  have h2 : ¬ c = 46 := by omega
  unfold parseIP
  split
  · rfl
  · rw [parseIPv4, parseIPv4Loop, if_neg h1, if_neg h2]

theorem handshake_socks5_any (ok : Bool) (n1 n0 : Nat) (meths : List Nat)
    (ver cmd rsv a b c d p1 p0 : Nat) (rest : List Nat)
    (hm : meths.length = if 256 * n1 + n0 = 0 then 0 else clamp (256 * n1 + n0) 1 255) :
    handshake ok ([5, n1, n0] ++ meths ++ [ver, cmd, rsv, 1, a, b, c, d, p1, p0] ++ rest)
      = ([Event.clWrite [5, 0], Event.clWrite granted5],
         if ok = true then some (ip2str (a, b, c, d) ++ [58] ++ itoa (256 * p1 + p0), rest)
         else none) := by
  by_cases hn : 256 * n1 + n0 = 0
  · rw [if_pos hn] at hm
    have hnil : meths = [] := List.length_eq_zero.mp hm
    have h1 : n1 = 0 := by omega
    have h0 : n0 = 0 := by omega
    subst h1 h0 hnil
    cases ok <;> simp [handshake, read]
  · rw [if_neg hn] at hm
    have hpos : 256 * n1 + n0 > 0 := by omega
    cases ok <;> simp [handshake, read, hpos, ← hm]

theorem handle_dials (w : World) (ev : List Event) (addr rest : List Nat)
    (hs : handshake w.clWriteOk w.input = (ev, some (addr, rest))) (h58 : 58 ∈ addr) :
    dials (handle w) ≠ [] := by
  obtain ⟨t, ht, _⟩ := dialTor_some w addr h58
  have hd := (dialTor_events w addr t ht).2.2
  unfold handle
  simp only [hs]
  split
  · simp only [ht]
    split <;> simp [dials_append, hd]
  · split <;> simp [dials_append, dials]

theorem dialTor_fields (w : World) (addr addr' host f1 : List Nat) (tl tl' : List (List Nat))
    (hs : split 58 addr = host :: f1 :: tl) (hs' : split 58 addr' = host :: f1 :: tl') :
    dialTor w addr = dialTor w addr' := by
  unfold dialTor
  simp only [hs, hs']

theorem dropWhile_head (p : Nat → Bool) (l : List Nat)
    (h : ∀ c, l.head? = some c → p c = false) : l.dropWhile p = l := by
  cases l with
  | nil => rfl
  | cons x xs =>
    have hx : ¬ p x = true := by simp [h x rfl]
    exact List.dropWhile_cons_of_neg hx

theorem trimLeft_self (l : List Nat) (h : ∀ c, l.head? = some c → isBlank c = false) :
    trimLeft l = l := dropWhile_head _ l h

theorem trimLeft_blank (l : List Nat) (h : ∀ c, l.head? = some c → isBlank c = false) :
    trimLeft (32 :: l) = l := by
  have hb : isBlank 32 = true := by decide
  rw [trimLeft, List.dropWhile_cons_of_pos hb]
  exact dropWhile_head _ l h

theorem trimRight_blank (l : List Nat) (h : ∀ c, l.getLast? = some c → isBlank c = false) :
    trimRight (l ++ [32]) = l := by
  have hb : isBlank 32 = true := by decide
  rw [trimRight, List.reverse_append, List.reverse_singleton, List.singleton_append,
    List.dropWhile_cons_of_pos hb, dropWhile_head _ _ (by simpa using h), List.reverse_reverse]

theorem splitN2_first (sep : Nat) (xs ys : List Nat) (h : sep ∉ xs) :
    splitN2 sep (xs ++ sep :: ys) = [xs, ys] := by
  have hp : ∀ a ∈ xs, (decide (a ≠ sep)) = true := by
    intro a ha
    have : a ≠ sep := fun e => h (e ▸ ha)
    simpa using this
  have hmem : sep ∈ xs ++ sep :: ys := by simp
  rw [splitN2, if_pos hmem, List.takeWhile_append_of_pos hp, List.dropWhile_append_of_pos hp]
  simp

theorem scanLines_single (line : List Nat) (hne : line ≠ []) (hnl : 10 ∉ line)
    (hcr : line.getLast? ≠ some 13) (hlen : line.length < 65536) :
    scanLines line = [line] := by
  have hraw : rawLines line = [line] := by
    rw [rawLines, split_not_mem _ hnl]
    simp [hne]
  have hm : maxScanTokenSize = 65536 := rfl
  rw [scanLines, hraw, hm]
  simp [hlen, dropCR, hcr]

theorem loadLine_key_value (st : LoadState) (k v : List Nat)
    (hk_eq : 61 ∉ k)
    (hk_last : ∀ c, k.getLast? = some c → isBlank c = false)
    (hk_head : ∀ c, k.head? = some c →
      c ≠ 59 ∧ c ≠ 91 ∧ c ≠ 93 ∧ c ≠ 61 ∧ isBlank c = false)
    (hk_ne : k ≠ [])
    (hv_head : ∀ c, v.head? = some c → isBlank c = false) :
    loadLine st (k ++ [32, 61, 32] ++ v)
      = some ⟨st.global.modifyAt st.sec (INI.setVal k v), st.sec⟩ := by
  cases k with
  | nil => exact absurd rfl hk_ne
  | cons c kt =>
    obtain ⟨h59, h91, h93, h61, hbl⟩ := hk_head c rfl
    have e : (c :: kt) ++ [32, 61, 32] ++ v = ((c :: kt) ++ [32]) ++ 61 :: (32 :: v) := by simp
    have hsep : 61 ∉ (c :: kt) ++ [32] := by
      intro hm
      rcases List.mem_append.mp hm with hm | hm
      · exact hk_eq hm
      · simp at hm
    have htl : trimLeft (c :: (kt ++ 32 :: 61 :: 32 :: v)) = c :: (kt ++ 32 :: 61 :: 32 :: v) :=
      trimLeft_self _ (by intro x hx; simp at hx; subst hx; exact hbl)
    have hsplit := splitN2_first 61 ((c :: kt) ++ [32]) (32 :: v) hsep
    have htr := trimRight_blank (c :: kt) hk_last
    have htv := trimLeft_blank v hv_head
    have e2 : c :: (kt ++ 32 :: 61 :: 32 :: v) = ((c :: kt) ++ [32]) ++ 61 :: (32 :: v) := by
      simp
    rw [e]
    unfold loadLine
    rw [← e2, htl]
    simp only [List.length_cons, Nat.add_one_ne_zero, if_false, List.headD_cons, h59, h91, h93,
      h61, false_or]
    rw [e2, hsplit]
    have htr2 : trimRight (c :: (kt ++ [32])) = c :: kt := by simpa using htr
    simp [htr2, htv]

theorem scanLines_long (line : List Nat) (hne : line ≠ []) (hnl : 10 ∉ line)
    (hlen : 65536 ≤ line.length) : scanLines line = [] := by
  have hraw : rawLines line = [line] := by
    rw [rawLines, split_not_mem _ hnl]
    simp [hne]
  have hm : maxScanTokenSize = 65536 := rfl
  have hlt : ¬ line.length < 65536 := by omega
  rw [scanLines, hraw, hm]
  simp [hlt]

/-! ## The claims C11 to C20 -/

/-- C11 (the code at the failing inputs): when the handshake succeeds and the client
closes before sending a hello, `readHello` returns `(nil, false)` and `handle` goes
on: after a SOCKS4 request for 1.2.3.4:80, and after a SOCKS5 request for the same
address, it dials 1.2.3.4:80 directly, calls `tgtConn.Write` with the empty hello
and starts the forwarding pump. -/
theorem C11_hello_eof_still_dials :
    readHello (fun _ => true) 10000 [] = ([], false)
      ∧ handle (World.simple [4, 1, 0, 80, 1, 2, 3, 4, 0] (fun _ => true))
          = [Event.clWrite [0, 0x5A, 0, 0, 0, 0, 0, 0],
             Event.dial [49, 46, 50, 46, 51, 46, 52, 58, 56, 48], Event.tgtWrite [], Event.pump,
             Event.tgtClose, Event.clClose]
      ∧ handle (World.simple [5, 0, 1, 0, 5, 1, 0, 1, 1, 2, 3, 4, 0, 80] (fun _ => true))
          = [Event.clWrite [5, 0], Event.clWrite [5, 0, 0, 1, 0, 0, 0, 0, 0, 0],
             Event.dial [49, 46, 50, 46, 51, 46, 52, 58, 56, 48], Event.tgtWrite [], Event.pump,
             Event.tgtClose, Event.clClose] := by
  decide

/-- C12 (the code at the failing inputs): on the relay route the connection that
`dialTor` opened is never closed.  After a SOCKS4 request and a TLS hello that the
pattern matches, the trace of `handle` ends with the pump and the close of the client
connection, without a close of the relay connection; and when the relay connection was
opened but the last read of `dialTor` failed, `handle` returns after closing the
client connection only. -/
theorem C12_relay_connection_left_open :
    handle (World.simple [4, 1, 0, 80, 1, 2, 3, 4, 0, 22, 3, 1] (fun _ => true))
        = [Event.clWrite [0, 0x5A, 0, 0, 0, 0, 0, 0], Event.dialRelay,
           Event.relayWrite [5, 1, 0], Event.relayRead, Event.relayWrite [5, 1, 0, 1],
           Event.relayWrite [1, 2, 3, 4], Event.relayWrite [0, 80], Event.relayRead,
           Event.tgtWrite [22, 3, 1], Event.pump, Event.clClose]
      ∧ dialTor ⟨[], 10000, true, fun _ => true, true, true, false, fun _ => none⟩
          [49, 46, 50, 46, 51, 46, 52, 58, 56, 48]
          = some ⟨[Event.dialRelay, Event.relayWrite [5, 1, 0], Event.relayRead,
              Event.relayWrite [5, 1, 0, 1], Event.relayWrite [1, 2, 3, 4],
              Event.relayWrite [0, 80], Event.relayRead], true, true⟩
      ∧ handle ⟨[4, 1, 0, 80, 1, 2, 3, 4, 0, 22, 3, 1], 10000, true, fun _ => true, true, true,
          false, fun _ => none⟩
        = [Event.clWrite [0, 0x5A, 0, 0, 0, 0, 0, 0], Event.dialRelay,
           Event.relayWrite [5, 1, 0], Event.relayRead, Event.relayWrite [5, 1, 0, 1],
           Event.relayWrite [1, 2, 3, 4], Event.relayWrite [0, 80], Event.relayRead,
           Event.clClose] := by
  decide

/-- C13 (the claim as stated fails): with the method count 0, `clamp(0, 1, 255)` is 1
but no method byte is read: in `05 00 00 07 05 01 00 01 ...` the byte 07 is taken as
the first byte of the request header (so the address type read is 0 and the session
ends), and in `05 00 00 05 01 00 01 01 02 03 04 00 50` the request header is read
right after the count. -/
theorem C13_zero_count_reads_nothing :
    clamp 0 1 255 = 1
      ∧ handshake true ([5, 0, 0] ++ [7] ++ [5, 1, 0, 1, 1, 2, 3, 4, 0, 80])
          = ([Event.clWrite [5, 0]], none)
      ∧ handshake true ([5, 0, 0] ++ [] ++ [5, 1, 0, 1, 1, 2, 3, 4, 0, 80])
          = ([Event.clWrite [5, 0], Event.clWrite [5, 0, 0, 1, 0, 0, 0, 0, 0, 0]],
             some ([49, 46, 50, 46, 51, 46, 52, 58, 56, 48], [])) := by
  decide

/-- C13 (amended): for every SOCKS5 greeting with method-count field `n = 256*n1 + n0`,
the request header is read after exactly `k` method bytes, where `k` is 0 when
`n = 0`, `n` when `1 ≤ n ≤ 255` and 255 when `n > 255` (that is `clamp(n, 1, 255)`
for `n ≥ 1`): whatever the `k` method bytes are, the reply is `05 00`, the header
and address that follow them are the ones used, and what follows is left unread. -/
theorem C13_method_bytes_skipped (n1 n0 k : Nat) (meths : List Nat)
    (ver cmd rsv a b c d p1 p0 : Nat) (rest : List Nat)
    (hk : k = if 256 * n1 + n0 = 0 then 0 else if 256 * n1 + n0 ≤ 255 then 256 * n1 + n0
      else 255)
    (hm : meths.length = k) :
    handshake true ([5, n1, n0] ++ meths ++ [ver, cmd, rsv, 1, a, b, c, d, p1, p0] ++ rest)
        = ([Event.clWrite [5, 0], Event.clWrite granted5],
           some (ip2str (a, b, c, d) ++ [58] ++ itoa (256 * p1 + p0), rest))
      ∧ (256 * n1 + n0 ≠ 0 → k = clamp (256 * n1 + n0) 1 255) := by
  have hc : (256 * n1 + n0 ≠ 0 → k = clamp (256 * n1 + n0) 1 255) := by
    intro hn
    rw [hk, if_neg hn]
    simp only [clamp]
    split <;> omega
  refine ⟨?_, hc⟩
  apply handshake_socks5_count
  by_cases hn : 256 * n1 + n0 = 0
  · rw [hm, hk, if_pos hn, if_pos hn]
  · rw [if_neg hn, hm]
    exact hc hn

/-- Witness of C13: the count field `01 00` (256) makes `handle` skip 255 method
bytes. -/
theorem C13_method_bytes_skipped_witness :
    handshake true ([5, 1, 0] ++ List.replicate 255 0 ++ [5, 1, 0, 1, 1, 2, 3, 4, 0, 80] ++ [22])
        = ([Event.clWrite [5, 0], Event.clWrite granted5],
           some (ip2str (1, 2, 3, 4) ++ [58] ++ itoa (256 * 0 + 80), [22]))
      ∧ (256 * 1 + 0 ≠ 0 → 255 = clamp (256 * 1 + 0) 1 255) :=
  C13_method_bytes_skipped 1 0 255 (List.replicate 255 0) 5 1 0 1 2 3 4 0 80 [22]
    (by decide) (List.length_replicate 255 0)

/-- C14 (the code at the failing input): for a host of 256 bytes `a` that is not a
literal IP and does not resolve, with port 80, `dialTor` sends `05 01 00 03`, then
the length byte 0 (256 modulo 256) followed by all 256 bytes of the host, then
`00 50`: the length byte is not the number of bytes of the host. -/
theorem C14_length_byte_wraps :
    dialTor (World.simple [] (fun _ => true)) (List.replicate 256 97 ++ [58] ++ itoa 80)
      = some ⟨[Event.dialRelay, Event.relayWrite [5, 1, 0], Event.relayRead,
          Event.relayWrite [5, 1, 0, 3], Event.relayWrite (0 :: List.replicate 256 97),
          Event.relayWrite [0, 80], Event.relayRead], true, false⟩ := by
  have h := dialTor_domain (World.simple [] (fun _ => true)) (List.replicate 256 97) 80
    (fun hm => by have := List.eq_of_mem_replicate hm; omega)
    (parseIP_not_digit 97 (List.replicate 255 97) (by omega)) rfl (by omega) rfl
  rw [h, List.length_replicate]
  rfl

/-- C15: for every SOCKS4 request whose command byte is not 1, whatever bytes follow
it (also none), `handle` only closes the client connection: it writes no byte to the
client and dials no outbound connection. -/
theorem C15_socks4_bad_command (w : World) (cmd : Nat) (rest : List Nat)
    (hcmd : cmd ≠ 1) (hin : w.input = 4 :: cmd :: rest) :
    handle w = [Event.clClose]
      ∧ clientWritten (handle w) = [] ∧ dials (handle w) = [] := by
  have hs : handshake w.clWriteOk w.input = ([], none) := by
    rw [hin]
    by_cases hl : 7 ≤ (cmd :: rest).length
    · simp only [List.length_cons] at hl
      have hl' : 6 ≤ rest.length := by omega
      simp [handshake, read, hl', hcmd]
    · exact handshake_short_socks4 _ _ (by omega)
  have h := handle_none w _ hs
  rw [h]
  simp [clientWritten, dials]

/-- Witness of C15: a SOCKS4 BIND request (command 2) for 1.2.3.4:80. -/
theorem C15_socks4_bad_command_witness :
    handle (World.simple [4, 2, 0, 80, 1, 2, 3, 4, 0, 22] (fun _ => true)) = [Event.clClose]
      ∧ clientWritten (handle (World.simple [4, 2, 0, 80, 1, 2, 3, 4, 0, 22] (fun _ => true)))
          = []
      ∧ dials (handle (World.simple [4, 2, 0, 80, 1, 2, 3, 4, 0, 22] (fun _ => true))) = [] :=
  C15_socks4_bad_command (World.simple [4, 2, 0, 80, 1, 2, 3, 4, 0, 22] (fun _ => true)) 2
    [0, 80, 1, 2, 3, 4, 0, 22] (by decide) rfl

/-- C16: `LoadINI` applied to the default configuration text `fallbackCfg` succeeds,
and on the global section `Val("listenaddr")` is `:1337`, `Val("toraddr")` is
`localhost:9050` and `Val("patt")` is `(imgur|sci-?hub|\.onion$)`, without
surrounding blanks, so `readCfg` reports none of the three keys as missing. -/
theorem C16_fallback_config :
    ∃ ini, LoadINI fallbackCfg = some ini
      ∧ ini.Val (str "listenaddr") = str ":1337"
      ∧ ini.Val (str "toraddr") = str "localhost:9050"
      ∧ ini.Val (str "patt") = str "(imgur|sci-?hub|\\.onion$)"
      ∧ missingKeys ini = [] := by
  cases h : LoadINI fallbackCfg with
  | none =>
    have hs : (LoadINI fallbackCfg).isSome = true := by decide
    rw [h] at hs
    exact absurd hs (by simp)
  | some ini =>
    refine ⟨ini, rfl, ?_, ?_, ?_, ?_⟩
    · have : (LoadINI fallbackCfg).map (fun i => i.Val (str "listenaddr"))
          = some (str ":1337") := by decide
      rw [h] at this
      simpa using this
    · have : (LoadINI fallbackCfg).map (fun i => i.Val (str "toraddr"))
          = some (str "localhost:9050") := by decide
      rw [h] at this
      simpa using this
    · have : (LoadINI fallbackCfg).map (fun i => i.Val (str "patt"))
          = some (str "(imgur|sci-?hub|\\.onion$)") := by decide
      rw [h] at this
      simpa using this
    · have : (LoadINI fallbackCfg).map missingKeys = some [] := by decide
      rw [h] at this
      simpa using this

/-- C17 (the claim as stated fails): in a reload step from listener 0 to the address
`:1338`, no `net.Listen` for the new address comes before the `ln.Close()` of the old
listener. -/
theorem C17_listen_not_before_close :
    precedes (MainEvent.listen (str ":1338")) (MainEvent.lnClose 0)
      (mainStep ⟨0, str ":1337"⟩ (Msg.cfgNote (str ":1338") true)).1 = false := by
  decide

/-- C17 (amended): in every reload step of the control loop of `main`, whether the new
bind succeeds or not, the `ln.Close()` of the old listener comes before the
`net.Listen` for the new address; the step starts with that close. -/
theorem C17_close_before_listen (st : MainState) (addr : List Nat) (ok : Bool) :
    precedes (MainEvent.lnClose st.ln) (MainEvent.listen addr)
        (mainStep st (Msg.cfgNote addr ok)).1 = true
      ∧ (mainStep st (Msg.cfgNote addr ok)).1.head? = some (MainEvent.lnClose st.ln) := by
  cases ok <;> simp [mainStep, precedes]

/-- C18: the SOCKS5 branch of `handle` never looks at the version, command or reserved
byte of the request header: for every request header with address type 1 and any
`ver`, `cmd`, `rsv`, the whole session is the same as for the header `05 01 00 01`
(CONNECT) with the same address and port; the request-granted frame is written, the
dial address is `a.b.c.d:P` and, when that write returns without error, a
connection is dialled. -/
theorem C18_socks5_header_ignored (w : World) (n1 n0 : Nat) (meths : List Nat)
    (ver cmd rsv a b c d p1 p0 : Nat) (rest : List Nat)
    (hm : meths.length = if 256 * n1 + n0 = 0 then 0 else clamp (256 * n1 + n0) 1 255)
    (hin : w.input = [5, n1, n0] ++ meths ++ [ver, cmd, rsv, 1, a, b, c, d, p1, p0] ++ rest) :
    handle w
        = handle ⟨[5, n1, n0] ++ meths ++ [5, 1, 0, 1, a, b, c, d, p1, p0] ++ rest,
            w.helloAvail, w.clWriteOk, w.re, w.dialOk, w.torDialOk, w.torReplyOk, w.resolve⟩
      ∧ clientWritten (handle w) = [5, 0] ++ [5, 0, 0, 1, 0, 0, 0, 0, 0, 0]
      ∧ (w.clWriteOk = true →
          (handshake w.clWriteOk w.input).2
              = some (itoa a ++ [46] ++ itoa b ++ [46] ++ itoa c ++ [46] ++ itoa d ++ [58]
                        ++ itoa (256 * p1 + p0), rest)
            ∧ dials (handle w) ≠ []) := by
  have h1 := handshake_socks5_any w.clWriteOk n1 n0 meths ver cmd rsv a b c d p1 p0 rest hm
  have h2 := handshake_socks5_any w.clWriteOk n1 n0 meths 5 1 0 a b c d p1 p0 rest hm
  rw [← hin] at h1
  refine ⟨?_, ?_, ?_⟩
  · have hdt : ∀ addr, dialTor ⟨[5, n1, n0] ++ meths ++ [5, 1, 0, 1, a, b, c, d, p1, p0] ++ rest,
        w.helloAvail, w.clWriteOk, w.re, w.dialOk, w.torDialOk, w.torReplyOk, w.resolve⟩ addr
          = dialTor w addr := fun _ => rfl
    unfold handle
    simp only [h1, h2, hdt]
  · rw [clientWritten_handle, h1]
    simp [clientWritten, granted5]
  · intro hw
    rw [hw] at h1
    simp only [if_true] at h1
    have hd := handle_dials w _ _ _ (by rw [hw]; exact h1) (by simp)
    rw [hw, h1]
    exact ⟨by simp [ip2str], hd⟩

/-- Witness of C18: a SOCKS5 request with command 2 (BIND) for 1.2.3.4:80. -/
theorem C18_socks5_header_ignored_witness :
    handle (World.simple [5, 0, 1, 0, 5, 2, 0, 1, 1, 2, 3, 4, 0, 80, 71] (fun _ => false))
        = handle ⟨[5, 0, 1] ++ [0] ++ [5, 1, 0, 1, 1, 2, 3, 4, 0, 80] ++ [71],
            10000, true, fun _ => false, true, true, true, fun _ => none⟩
      ∧ clientWritten (handle (World.simple [5, 0, 1, 0, 5, 2, 0, 1, 1, 2, 3, 4, 0, 80, 71]
          (fun _ => false))) = [5, 0] ++ [5, 0, 0, 1, 0, 0, 0, 0, 0, 0]
      ∧ (true = true →
          (handshake true [5, 0, 1, 0, 5, 2, 0, 1, 1, 2, 3, 4, 0, 80, 71]).2
              = some ([49, 46, 50, 46, 51, 46, 52, 58, 56, 48], [71])
            ∧ dials (handle (World.simple [5, 0, 1, 0, 5, 2, 0, 1, 1, 2, 3, 4, 0, 80, 71]
                (fun _ => false))) ≠ []) :=
  C18_socks5_header_ignored
    (World.simple [5, 0, 1, 0, 5, 2, 0, 1, 1, 2, 3, 4, 0, 80, 71] (fun _ => false))
    0 1 [0] 5 2 0 1 2 3 4 0 80 [71] (by decide) rfl

/-- C19: `dialTor` undoes the formatting of `handle` only for hosts without a colon.
For a host without a colon and a port `P` below 65536, splitting `host:P` on colons
gives exactly the two fields `host` and the decimal of `P` (so `ss[1]` is in range
and `dialTor` does not panic), the parsed port is `P`, and once the relay is reached
the request sent to it carries the address computed from `host` itself and the two
bytes of `P`.  For a host `h1:f...` with a colon (`h1` and `f` without one), the
fields of `h1:f...:P` start with `h1` and `f` and there is a third one, so `dialTor`
behaves as on the address `h1:f`: the request sent to the relay carries the address
computed from `h1`, the text before the first colon, and the port parsed from `f`,
not `P`. -/
theorem C19_split_inverts_format (w : World) (host h1 f tail : List Nat) (P : Nat)
    (hP : P < 65536) (hhost : 58 ∉ host) (hh1 : 58 ∉ h1) (hf : 58 ∉ f)
    (htail : tail = [] ∨ tail.head? = some 58) :
    (split 58 (host ++ [58] ++ itoa P) = [host, itoa P]
        ∧ atoi (itoa P) = (P : Int)
        ∧ (dialTor w (host ++ [58] ++ itoa P)).isSome = true
        ∧ (w.torDialOk = true →
            dialTor w (host ++ [58] ++ itoa P)
              = some ⟨[Event.dialRelay, Event.relayWrite [5, 1, 0], Event.relayRead,
                  Event.relayWrite [5, 1, 0, (relayAddr w host).1],
                  Event.relayWrite (relayAddr w host).2,
                  Event.relayWrite [P / 256, P % 256], Event.relayRead],
                true, !w.torReplyOk⟩))
      ∧ ∃ tl, split 58 ((h1 ++ [58] ++ f ++ tail) ++ [58] ++ itoa P) = h1 :: f :: tl
          ∧ tl ≠ []
          ∧ dialTor w ((h1 ++ [58] ++ f ++ tail) ++ [58] ++ itoa P)
              = dialTor w (h1 ++ [58] ++ f)
          ∧ (w.torDialOk = true →
              dialTor w ((h1 ++ [58] ++ f ++ tail) ++ [58] ++ itoa P)
                = some ⟨[Event.dialRelay, Event.relayWrite [5, 1, 0], Event.relayRead,
                    Event.relayWrite [5, 1, 0, (relayAddr w h1).1],
                    Event.relayWrite (relayAddr w h1).2,
                    Event.relayWrite [(atoi f % 65536).toNat / 256,
                      (atoi f % 65536).toNat % 256], Event.relayRead],
                  true, !w.torReplyOk⟩) := by
  have hit : 58 ∉ itoa P := not_mem_itoa _ (by omega)
  have ha : split 58 (host ++ [58] ++ itoa P) = [host, itoa P] := by
    rw [List.append_assoc, List.singleton_append, split_append _ _ hhost,
      split_not_mem _ hit]
  have hport : atoi (itoa P) = (P : Int) := atoi_itoa (by omega)
  have hsome : (dialTor w (host ++ [58] ++ itoa P)).isSome = true := by
    obtain ⟨t, ht, _⟩ := dialTor_some w (host ++ [58] ++ itoa P) (by simp)
    rw [ht]
    rfl
  have hreq : w.torDialOk = true →
      dialTor w (host ++ [58] ++ itoa P)
        = some ⟨[Event.dialRelay, Event.relayWrite [5, 1, 0], Event.relayRead,
            Event.relayWrite [5, 1, 0, (relayAddr w host).1],
            Event.relayWrite (relayAddr w host).2,
            Event.relayWrite [P / 256, P % 256], Event.relayRead],
          true, !w.torReplyOk⟩ := by
    intro hdial
    have hmod : ((P : Int) % 65536).toNat = P := by omega
    unfold dialTor
    simp only [ha, hdial, not_true_eq_false, if_false, hport, hmod]
    rfl
  refine ⟨⟨ha, hport, hsome, hreq⟩, ?_⟩
  have hshort : split 58 (h1 ++ [58] ++ f) = [h1, f] := by
    rw [List.append_assoc, List.singleton_append, split_append _ _ hh1, split_not_mem _ hf]
  have hlong : ∃ tl, split 58 ((h1 ++ [58] ++ f ++ tail) ++ [58] ++ itoa P) = h1 :: f :: tl
      ∧ tl ≠ [] := by
    have e : (h1 ++ [58] ++ f ++ tail) ++ [58] ++ itoa P
        = h1 ++ 58 :: (f ++ (tail ++ 58 :: itoa P)) := by simp
    rw [e, split_append _ _ hh1]
    rcases htail with ht | ht
    · subst ht
      rw [List.nil_append, split_append _ _ hf, split_not_mem _ hit]
      exact ⟨[itoa P], rfl, by simp⟩
    · cases tail with
      | nil => simp at ht
      | cons x t' =>
        simp only [List.head?_cons, Option.some.injEq] at ht
        subst ht
        rw [List.cons_append, split_append _ _ hf]
        exact ⟨_, rfl, split_ne_nil _ _⟩
  obtain ⟨tl, htl, hne⟩ := hlong
  refine ⟨tl, htl, hne, dialTor_fields w _ _ h1 f tl [] htl hshort, ?_⟩
  intro hdial
  unfold dialTor
  simp only [htl, hdial, not_true_eq_false, if_false]
  rfl

/-- Witness of C19: the host `a.b` with port 8080 (the relay is asked for the domain
`a.b` and the port bytes `1F 90`), and the SOCKS4a domain `e:x`, also with port 8080
(the relay is asked for the domain `e` and the port bytes `00 00`); the two calls of
`dialTor` are also evaluated on their own. -/
theorem C19_split_inverts_format_witness :
    ((split 58 ([97, 46, 98] ++ [58] ++ itoa 8080) = [[97, 46, 98], itoa 8080]
        ∧ atoi (itoa 8080) = ((8080 : Nat) : Int)
        ∧ (dialTor (World.simple [] (fun _ => true)) ([97, 46, 98] ++ [58] ++ itoa 8080)).isSome
            = true
        ∧ (true = true →
            dialTor (World.simple [] (fun _ => true)) ([97, 46, 98] ++ [58] ++ itoa 8080)
              = some ⟨[Event.dialRelay, Event.relayWrite [5, 1, 0], Event.relayRead,
                  Event.relayWrite [5, 1, 0, 3],
                  Event.relayWrite [3, 97, 46, 98],
                  Event.relayWrite [31, 144], Event.relayRead],
                true, false⟩))
      ∧ ∃ tl, split 58 (([101] ++ [58] ++ [120] ++ []) ++ [58] ++ itoa 8080)
            = [101] :: [120] :: tl
          ∧ tl ≠ []
          ∧ dialTor (World.simple [] (fun _ => true))
                (([101] ++ [58] ++ [120] ++ []) ++ [58] ++ itoa 8080)
              = dialTor (World.simple [] (fun _ => true)) ([101] ++ [58] ++ [120])
          ∧ (true = true →
              dialTor (World.simple [] (fun _ => true))
                  (([101] ++ [58] ++ [120] ++ []) ++ [58] ++ itoa 8080)
                = some ⟨[Event.dialRelay, Event.relayWrite [5, 1, 0], Event.relayRead,
                    Event.relayWrite [5, 1, 0, 3],
                    Event.relayWrite [1, 101],
                    Event.relayWrite [0, 0], Event.relayRead],
                  true, false⟩))
      ∧ dialTor (World.simple [] (fun _ => true)) [97, 46, 98, 58, 56, 48, 56, 48]
          = some ⟨[Event.dialRelay, Event.relayWrite [5, 1, 0], Event.relayRead,
              Event.relayWrite [5, 1, 0, 3], Event.relayWrite [3, 97, 46, 98],
              Event.relayWrite [31, 144], Event.relayRead], true, false⟩
      ∧ dialTor (World.simple [] (fun _ => true)) [101, 58, 120, 58, 56, 48, 56, 48]
          = some ⟨[Event.dialRelay, Event.relayWrite [5, 1, 0], Event.relayRead,
              Event.relayWrite [5, 1, 0, 3], Event.relayWrite [1, 101],
              Event.relayWrite [0, 0], Event.relayRead], true, false⟩ :=
  ⟨C19_split_inverts_format (World.simple [] (fun _ => true)) [97, 46, 98] [101] [120] []
      8080 (by decide) (by decide) (by decide) (by decide) (Or.inl rfl),
    by decide, by decide⟩

/-- C20 (the claim as stated fails): for the key `k` and the value `a` followed by a
carriage return (a non-empty value without a newline that does not begin with a
blank), loading the single line `k = a\r` succeeds but `Val("k")` is `a`: the
scanner drops the trailing carriage return of the line.  And for the value made of
65536 bytes `a` the line does not fit the buffer of the scanner: loading succeeds
with no key at all, so `Val("k")` is empty. -/
theorem C20_value_not_verbatim :
    (∃ ini, LoadINI ([107] ++ [32, 61, 32] ++ [97, 13]) = some ini
        ∧ ini.Val [107] = [97] ∧ ini.Val [107] ≠ [97, 13])
      ∧ (∃ ini, LoadINI ([107] ++ [32, 61, 32] ++ List.replicate 65536 97) = some ini
        ∧ ini.Val [107] = [] ∧ ini.Val [107] ≠ List.replicate 65536 97) := by
  constructor
  · cases h : LoadINI ([107] ++ [32, 61, 32] ++ [97, 13]) with
    | none =>
      have hs : (LoadINI ([107] ++ [32, 61, 32] ++ [97, 13])).isSome = true := by decide
      rw [h] at hs
      exact absurd hs (by simp)
    | some ini =>
      have hv : (LoadINI ([107] ++ [32, 61, 32] ++ [97, 13])).map (fun i => i.Val [107])
          = some [97] := by decide
      rw [h] at hv
      have hv' : ini.Val [107] = [97] := by simpa using hv
      exact ⟨ini, rfl, hv', by rw [hv']; decide⟩
  · have hnl : 10 ∉ [107] ++ [32, 61, 32] ++ List.replicate 65536 97 := by
      intro hm
      rcases List.mem_append.mp hm with hm | hm
      · revert hm; decide
      · have := List.eq_of_mem_replicate hm
        omega
    have hlen : 65536 ≤ ([107] ++ [32, 61, 32] ++ List.replicate 65536 97).length := by
      rw [List.length_append, List.length_replicate]
      omega
    have hne : [107] ++ [32, 61, 32] ++ List.replicate 65536 97 ≠ [] := by
      intro h0
      have := congrArg List.length h0
      rw [List.length_nil] at this
      omega
    have hscan := scanLines_long _ hne hnl hlen
    refine ⟨newSection [], ?_, rfl, ?_⟩
    · rw [LoadINI, hscan]
      rfl
    · intro h0
      have := congrArg List.length h0
      rw [List.length_replicate] at this
      revert this
      decide

/-- C20 (amended): for every key `k` (non-empty, without `=` or newline, not ending in
a blank, not beginning with `;`, `[`, `]`, `=` or a blank) and every non-empty value
`v` without a newline that does not begin with a blank and does not end with a
carriage return, when the line `k = v` is shorter than 65536 bytes, loading that
single line succeeds and `Val(k)` is `v` exactly: only the first `=` splits the line
and nothing else is stripped from the value. -/
theorem C20_value_verbatim (k v : List Nat)
    (hk_ne : k ≠ []) (hk_eq : 61 ∉ k) (hk_nl : 10 ∉ k)
    (hk_last : ∀ c, k.getLast? = some c → isBlank c = false)
    (hk_head : ∀ c, k.head? = some c →
      c ≠ 59 ∧ c ≠ 91 ∧ c ≠ 93 ∧ c ≠ 61 ∧ isBlank c = false)
    (hv_ne : v ≠ []) (hv_nl : 10 ∉ v)
    (hv_head : ∀ c, v.head? = some c → isBlank c = false)
    (hv_cr : v.getLast? ≠ some 13)
    (hlen : (k ++ [32, 61, 32] ++ v).length < 65536) :
    ∃ ini, LoadINI (k ++ [32, 61, 32] ++ v) = some ini ∧ ini.Val k = v := by
  have hline_ne : k ++ [32, 61, 32] ++ v ≠ [] := by simp [hv_ne]
  have hline_nl : 10 ∉ k ++ [32, 61, 32] ++ v := by simp [hk_nl, hv_nl]
  have hline_cr : (k ++ [32, 61, 32] ++ v).getLast? ≠ some 13 := by
    rw [List.getLast?_append_of_ne_nil _ hv_ne]
    exact hv_cr
  have hscan := scanLines_single _ hline_ne hline_nl hline_cr hlen
  have hload := loadLine_key_value ⟨newSection [], []⟩ k v hk_eq hk_last hk_head hk_ne
    hv_head
  refine ⟨INI.setVal k v (newSection []), ?_, ?_⟩
  · rw [LoadINI, hscan, loadLines, hload]
    rfl
  · simp [INI.Val, INI.setVal, newSection, INI.vals]

/-- Witness of C20: the key `patt` with the value `a=b;c ` (an `=`, a `;` and a
trailing space inside the value). -/
theorem C20_value_verbatim_witness :
    ∃ ini, LoadINI (str "patt" ++ [32, 61, 32] ++ str "a=b;c ") = some ini
      ∧ ini.Val (str "patt") = str "a=b;c " :=
  C20_value_verbatim (str "patt") (str "a=b;c ") (by decide) (by decide) (by decide)
    (by decide) (by decide) (by decide) (by decide) (by decide) (by decide) (by decide)

end Starmer
